import Mathlib

set_option maxHeartbeats 1000000
set_option maxRecDepth 4000

/-!  Shallow embedding of the ScaleCircle pitch-class-circle application
(`src/utils.js`, `src/export.js`, `src/script.js`).

Modelling conventions:

* JavaScript numbers are modelled exactly: finite values are exact rationals
  (`QNum`, for the computable parsing layer) or exact reals (`RNum`, once the
  irrational `1200*log2 r` cents values enter); the special values `NaN`,
  `Infinity` and `-Infinity` are explicit constructors.  IEEE-754 rounding,
  overflow and signed zero are outside the model.
* `Number(string)` is modelled on the decimal / `Infinity` fragment of the
  ECMAScript string-numeric-literal grammar (hex, octal and binary literals
  are not modelled; they evaluate to `NaN` here).  `Math.log` is modelled
  exactly (`NaN` on negatives, `-Infinity` at `0`, `Real.log` on positives),
  so `1200 * Math.log(r) / Math.LN2` becomes `1200 * Real.logb 2 r`.
* DOM access is platform glue: every function that reads a control value or a
  bounding rectangle from the DOM is modelled as a function of those values.
* All functions are total, so "no exception propagates" is inherent in the
  model; the interesting part of the error claims is which value is returned.
-/

/-- A JavaScript number in the exact-rational idealisation: the computable
layer used by the string parsers. -/
inductive QNum where
  | fin : ℚ → QNum
  | nan : QNum
  | inf : QNum
  | negInf : QNum
deriving DecidableEq, Repr

/-- A JavaScript number in the exact-real idealisation: used once cents
values (`1200 * log2 r`, generally irrational) enter the pipeline. -/
inductive RNum where
  | fin : ℝ → RNum
  | nan : RNum
  | inf : RNum
  | negInf : RNum

/-- Inject the rational layer into the real layer. -/
noncomputable def QNum.toR : QNum → RNum
  | .fin q => .fin (q : ℝ)
  | .nan => .nan
  | .inf => .inf
  | .negInf => .negInf

/-- `isFinite` of JavaScript, as a predicate on the real layer. -/
def RNum.IsFinite : RNum → Prop
  | .fin _ => True
  | _ => False

instance : DecidablePred RNum.IsFinite := fun r => by
  cases r <;> simp [RNum.IsFinite] <;> infer_instance

/-- JavaScript addition on extended numbers. -/
noncomputable def jsAdd : RNum → RNum → RNum
  | .nan, _ => .nan
  | _, .nan => .nan
  | .fin x, .fin y => .fin (x + y)
  | .inf, .negInf => .nan
  | .negInf, .inf => .nan
  | .inf, _ => .inf
  | _, .inf => .inf
  | .negInf, _ => .negInf
  | _, .negInf => .negInf

/-- JavaScript subtraction on extended numbers. -/
noncomputable def jsSub : RNum → RNum → RNum
  | .nan, _ => .nan
  | _, .nan => .nan
  | .fin x, .fin y => .fin (x - y)
  | .inf, .inf => .nan
  | .negInf, .negInf => .nan
  | .inf, _ => .inf
  | .negInf, _ => .negInf
  | _, .inf => .negInf
  | _, .negInf => .inf

open Classical in
/-- JavaScript multiplication on extended numbers (`±∞ * 0 = NaN`). -/
noncomputable def jsMul : RNum → RNum → RNum
  | .nan, _ => .nan
  | _, .nan => .nan
  | .fin x, .fin y => .fin (x * y)
  | .fin x, .inf => if x = 0 then .nan else if 0 < x then .inf else .negInf
  | .fin x, .negInf => if x = 0 then .nan else if 0 < x then .negInf else .inf
  | .inf, .fin y => if y = 0 then .nan else if 0 < y then .inf else .negInf
  | .negInf, .fin y => if y = 0 then .nan else if 0 < y then .negInf else .inf
  | .inf, .inf => .inf
  | .inf, .negInf => .negInf
  | .negInf, .inf => .negInf
  | .negInf, .negInf => .inf

open Classical in
/-- JavaScript division on extended numbers (`x/0 = ±∞` for `x ≠ 0`,
`0/0 = NaN`, `x/±∞ = 0`; the model has no signed zero). -/
noncomputable def jsDiv : RNum → RNum → RNum
  | .nan, _ => .nan
  | _, .nan => .nan
  | .fin x, .fin y =>
      if y = 0 then (if x = 0 then .nan else if 0 < x then .inf else .negInf)
      else .fin (x / y)
  | .fin _, .inf => .fin 0
  | .fin _, .negInf => .fin 0
  | .inf, .fin y => if 0 ≤ y then .inf else .negInf
  | .negInf, .fin y => if 0 ≤ y then .negInf else .inf
  | .inf, _ => .nan
  | .negInf, _ => .nan

/-- Truncation toward zero, as used by the JavaScript `%` operator. -/
noncomputable def truncR (x : ℝ) : ℤ := if 0 ≤ x then ⌊x⌋ else ⌈x⌉

open Classical in
/-- The JavaScript remainder operator `%`: the result keeps the sign of the
dividend, `x % y = x - y * trunc(x / y)` on finite inputs. -/
noncomputable def jsMod : RNum → RNum → RNum
  | .nan, _ => .nan
  | _, .nan => .nan
  | .inf, _ => .nan
  | .negInf, _ => .nan
  | .fin x, .fin y => if y = 0 then .nan else .fin (x - y * (truncR (x / y) : ℝ))
  | .fin x, .inf => .fin x
  | .fin x, .negInf => .fin x

/-- `Math.cos`: `NaN` on non-finite input. -/
noncomputable def jsCos : RNum → RNum
  | .fin x => .fin (Real.cos x)
  | _ => .nan

/-- `Math.sin`: `NaN` on non-finite input. -/
noncomputable def jsSin : RNum → RNum
  | .fin x => .fin (Real.sin x)
  | _ => .nan

/-! ### String helpers (the fragments of the JS string library the source uses) -/

/-- `String.prototype.trim`, on character lists. -/
def trimChars (cs : List Char) : List Char :=
  ((cs.dropWhile Char.isWhitespace).reverse.dropWhile Char.isWhitespace).reverse

/-- `String.prototype.trim`. -/
def jsTrim (s : String) : String := String.mk (trimChars s.data)

/-- The cents-unit characters matched by the source's `/[c¢]/ig`. -/
def isUnitChar (c : Char) : Bool := c = 'c' || c = 'C' || c = '¢'

/-- `raw.replace(/\s/g, '')`: remove every whitespace character. -/
def stripWSChars (cs : List Char) : List Char := cs.filter (fun c => !c.isWhitespace)

/-- `raw.replace(/\s/g, '')` on strings. -/
def stripWS (s : String) : String := String.mk (stripWSChars s.data)

/-- `s.replace(/[c¢]/ig, '')`: remove every cents-unit character. -/
def stripUnitChars (cs : List Char) : List Char := cs.filter (fun c => !isUnitChar c)

/-- `s.replace(/[c¢]/ig, '')` on strings. -/
def stripUnits (s : String) : String := String.mk (stripUnitChars s.data)

/-- A one-character list holding a cents-unit character: the optional
`(?:c|¢)?$` suffix of the cents regex. -/
def isUnitSuffix (l : List Char) : Bool :=
  l.length = 1 && ((l.head?.map isUnitChar).getD false)

/-- Body of the cents regex after the optional leading minus sign:
`\d+(?:\.\d+)?(?:c|¢)?$` (case-insensitively, i.e. `c`, `C` or `¢`). -/
def centsCore (cs : List Char) : Bool :=
  let ds := cs.takeWhile Char.isDigit
  let r1 := cs.dropWhile Char.isDigit
  !ds.isEmpty &&
    (r1.isEmpty ||
     (if r1.head? = some '.' then
        let r2 := r1.tail
        let fs := r2.takeWhile Char.isDigit
        let r3 := r2.dropWhile Char.isDigit
        !fs.isEmpty && (r3.isEmpty || isUnitSuffix r3)
      else isUnitSuffix r1))

/-- The source's cents test `/^-?\d+(?:\.\d+)?(?:c|¢)?$/i` on character
lists. -/
def centsReAux (cs : List Char) : Bool :=
  if cs.head? = some '-' then centsCore cs.tail else centsCore cs

/-- The source's cents test `/^-?\d+(?:\.\d+)?(?:c|¢)?$/i`. -/
def centsRe (s : String) : Bool := centsReAux s.data

/-! ### `Number(string)` (decimal / `Infinity` fragment) -/

/-- Numeric value of a digit string (most significant first). -/
def natOfDigits (ds : List Char) : ℕ :=
  ds.foldl (fun n c => 10 * n + (c.toNat - '0'.toNat)) 0

/-- Value of `intDigits.fracDigits` as an exact rational. -/
def decVal (ds fs : List Char) : ℚ :=
  (natOfDigits ds : ℚ) + (natOfDigits fs : ℚ) / (10 : ℚ) ^ fs.length

/-- Exponent digits: at least one digit, all digits. -/
def expDigits (cs : List Char) : Option ℤ :=
  if !cs.isEmpty && cs.all Char.isDigit then some (natOfDigits cs) else none

/-- Exponent after `e`/`E`: optional sign, then digits. -/
def expSigned (cs : List Char) : Option ℤ :=
  if cs.head? = some '+' then expDigits cs.tail
  else if cs.head? = some '-' then (expDigits cs.tail).map (fun n => -n)
  else expDigits cs

/-- Optional exponent part: empty means `10^0`. -/
def expVal (cs : List Char) : Option ℤ :=
  if cs.isEmpty then some 0
  else if cs.head? = some 'e' ∨ cs.head? = some 'E' then expSigned cs.tail
  else none

/-- An unsigned ECMAScript decimal literal: `digits [. digits] [exp]` or
`. digits [exp]`, as an exact rational. -/
def numLit (cs : List Char) : Option ℚ :=
  let ds := cs.takeWhile Char.isDigit
  let r1 := cs.dropWhile Char.isDigit
  if r1.head? = some '.' then
    let r2 := r1.tail
    let fs := r2.takeWhile Char.isDigit
    let r3 := r2.dropWhile Char.isDigit
    if ds.isEmpty && fs.isEmpty then none
    else (expVal r3).map (fun e => decVal ds fs * (10 : ℚ) ^ e)
  else
    if ds.isEmpty then none
    else (expVal r1).map (fun e => decVal ds [] * (10 : ℚ) ^ e)

/-- Body of `Number(string)` after trimming and sign extraction. -/
def jsNumberBody (cs : List Char) (neg : Bool) : QNum :=
  if cs = "Infinity".data then (if neg then .negInf else .inf)
  else match numLit cs with
    | some q => .fin (if neg then -q else q)
    | none => .nan

/-- `Number(string)` on the decimal / `Infinity` fragment: trim, empty means
`0`, optional sign, then a decimal literal or `Infinity`; anything else is
`NaN`. -/
def jsNumber (s : String) : QNum :=
  let t := trimChars s.data
  if t.isEmpty then .fin 0
  else if t.head? = some '+' then jsNumberBody t.tail false
  else if t.head? = some '-' then jsNumberBody t.tail true
  else jsNumberBody t false

/-! ### `src/utils.js` : the interval / period parsers -/

/-- `parseRatio` (`src/utils.js:25-38`): trim; a string containing `/` splits
into its first two `/`-separated fields, both must be finite numbers with a
non-zero denominator; otherwise the whole string must be a finite positive
number.  The result is the exact ratio. -/
def parseRatio (str : String) : Option ℚ :=
  let s := trimChars str.data
  if s.isEmpty then none
  else if '/' ∈ s then
    let parts := s.splitOn '/'
    match jsNumber (String.mk (parts.getD 0 [])), jsNumber (String.mk (parts.getD 1 [])) with
    | .fin qa, .fin qb => if qb ≠ 0 then some (qa / qb) else none
    | _, _ => none
  else
    match jsNumber (String.mk s) with
    | .fin n => if 0 < n then some n else none
    | _ => none

open Classical in
/-- `1200 * log2(r)` as computed by the source (`1200 * Math.log(r)/Math.LN2`)
at an exact-rational ratio: `NaN` for negative ratios, `-Infinity` at zero,
the exact real value on positives. -/
noncomputable def centsOfRatio (r : ℚ) : RNum :=
  if r < 0 then .nan
  else if r = 0 then .negInf
  else .fin (1200 * Real.logb 2 (r : ℝ))

/-- The `type` tag of a parsed token (`'cents' | 'ratio' | 'period'`). -/
inductive TokType where
  | cents
  | ratio
  | period
deriving DecidableEq, Repr

/-- A parsed interval token: `{cents, raw, type}` as returned by
`parseCentsOrRatioToCents`. -/
structure IntervalToken where
  cents : RNum
  raw : String
  type : TokType

/-- `parseCentsOrRatioToCents` (`src/utils.js:45-64`): trim; reject empty and
`#`-prefixed tokens; if the whitespace-stripped token matches the cents
grammar and its unit-stripped numeric value is finite, return a `cents`
token; otherwise try `parseRatio` and return a `ratio` token with
`1200 * log2 r` cents. -/
noncomputable def parseCentsOrRatioToCents (token : String) : Option IntervalToken :=
  let raw := jsTrim token
  if raw.data.isEmpty || raw.data.head? = some '#' then none
  else
    let centsLike := stripWS raw
    let ratioPath : Option IntervalToken :=
      match parseRatio raw with
      | some r => some ⟨centsOfRatio r, raw, .ratio⟩
      | none => none
    if centsRe centsLike then
      match jsNumber (stripUnits centsLike) with
      | .fin n => some ⟨.fin (n : ℝ), raw, .cents⟩
      | _ => ratioPath
    else ratioPath

/-- `parsePeriodToCents` (`src/utils.js:71-85`): trim; empty is `NaN`; a
token matching the cents grammar (tested on the merely-trimmed string) is its
unit-stripped numeric value; otherwise `parseRatio`, converted to cents;
otherwise `NaN`. -/
noncomputable def parsePeriodToCents (str : String) : RNum :=
  let s := jsTrim str
  if s.data.isEmpty then .nan
  else if centsRe s then (jsNumber (stripUnits s)).toR
  else
    match parseRatio s with
    | some r => centsOfRatio r
    | none => .nan

/-- `Number.prototype.toFixed(0)`: round to the nearest integer, ties away
from the smaller value (ECMAScript picks the larger of two equally close
integers), rendered in decimal; `NaN`/`±Infinity` render as their names. -/
noncomputable def toFixed0 : RNum → String
  | .fin x => toString (⌊x + 1/2⌋ : ℤ)
  | .nan => "NaN"
  | .inf => "Infinity"
  | .negInf => "-Infinity"

/-- `normalizePeriodLabel` (`src/utils.js:93-107`): empty input falls back to
the rounded cents; ratio inputs (containing `/`) are kept verbatim; inputs
matching the cents grammar have unit characters stripped; anything else falls
back to the rounded cents. -/
noncomputable def normalizePeriodLabel (inputValue : String) (periodCents : RNum) : String :=
  let s := jsTrim inputValue
  if s.data.isEmpty then toFixed0 periodCents
  else if '/' ∈ s.data then s
  else if centsRe s then jsTrim (stripUnits s)
  else toFixed0 periodCents

/-! ### `src/utils.js` : geometry -/

/-- The angle formula of `buildItems` (`src/utils.js:134`):
`((cents / periodCents) * 360) % 360` in JavaScript arithmetic. -/
noncomputable def computeAngleDeg (cents periodCents : RNum) : RNum :=
  jsMod (jsMul (jsDiv cents periodCents) (.fin 360)) (.fin 360)

/-- A placed item: a parsed token (or the period) plus `deg`, `x`, `y`. -/
structure PlacedItem where
  cents : RNum
  raw : String
  type : TokType
  deg : RNum
  x : RNum
  y : RNum

/-- `intervalsText.split(/\r?\n/)`: split on `\n`, optionally preceded by
`\r`; a lone `\r` does not split. -/
def splitLinesAux : List Char → List Char → List String
  | [], acc => [String.mk acc.reverse]
  | '\r' :: '\n' :: rest, acc => String.mk acc.reverse :: splitLinesAux rest []
  | '\n' :: rest, acc => String.mk acc.reverse :: splitLinesAux rest []
  | c :: rest, acc => splitLinesAux rest (c :: acc)

/-- `intervalsText.split(/\r?\n/)` on strings. -/
def splitLines (s : String) : List String := splitLinesAux s.data []

/-- Placement of one parsed interval (`src/utils.js:134-141`): angle from
`computeAngleDeg`, then `theta = (deg - 90) * π/180` and a point on the
circle of the given radius around `(cx, cy)`. -/
noncomputable def placeItem (it : IntervalToken) (cx cy radius : ℝ)
    (periodCents : RNum) : PlacedItem :=
  let deg := computeAngleDeg it.cents periodCents
  let theta := jsMul (jsSub deg (.fin 90)) (.fin (Real.pi / 180))
  ⟨it.cents, it.raw, it.type, deg,
   jsAdd (.fin cx) (jsMul (jsCos theta) (.fin radius)),
   jsAdd (.fin cy) (jsMul (jsSin theta) (.fin radius))⟩

/-- `buildItems` (`src/utils.js:119-148`): the period item (cents `0`, the
normalised period label, angle `0`, at the top of the circle) followed by one
placed item per parseable interval line, in input order. -/
noncomputable def buildItems (periodInputValue intervalsText : String)
    (cx cy radius : ℝ) (periodCents : RNum) : List PlacedItem :=
  ⟨.fin 0, normalizePeriodLabel periodInputValue periodCents, .period,
   .fin 0, .fin cx, .fin (cy - radius)⟩ ::
  (splitLines intervalsText).filterMap
    (fun line => (parseCentsOrRatioToCents line).map
      (fun it => placeItem it cx cy radius periodCents))

/-! ### `src/utils.js` : dimensions, and `src/export.js` : export dimensions -/

/-- `DEFAULTS.PADDING`. -/
def DEFAULTS.PADDING : ℝ := 60
/-- `DEFAULTS.MIN_RADIUS`. -/
def DEFAULTS.MIN_RADIUS : ℝ := 20
/-- `DEFAULTS.MIN_DIMENSION`. -/
def DEFAULTS.MIN_DIMENSION : ℝ := 400
/-- `DEFAULTS.POINT_RADIUS`. -/
def DEFAULTS.POINT_RADIUS : ℝ := 5.2
/-- `DEFAULTS.LABEL_DISTANCE`. -/
def DEFAULTS.LABEL_DISTANCE : ℝ := 35
/-- `DEFAULTS.EXPORT_PADDING`. -/
def DEFAULTS.EXPORT_PADDING : ℝ := 30
/-- `DEFAULTS.EXPORT_MIN_SIZE`. -/
def DEFAULTS.EXPORT_MIN_SIZE : ℝ := 300

/-- A DOM bounding rectangle (the two fields the source reads). -/
structure RectWH where
  width : ℝ
  height : ℝ

/-- The drawing frame returned by `calculateDimensions`. -/
structure Dims where
  W : ℝ
  H : ℝ
  cx : ℝ
  cy : ℝ
  radius : ℝ

/-- `calculateDimensions` (`src/utils.js:156-171`). -/
noncomputable def calculateDimensions (containerRect : RectWH) (circleSizeMultiplier : ℝ) : Dims :=
  let W := max containerRect.width DEFAULTS.MIN_DIMENSION
  let H := max containerRect.height DEFAULTS.MIN_DIMENSION
  let maxRadius := min W H / 2 - DEFAULTS.PADDING
  let baseRadius := max DEFAULTS.MIN_RADIUS maxRadius
  ⟨W, H, W / 2, H / 2, baseRadius * circleSizeMultiplier⟩

/-- The square export frame returned by `calculateExportDimensions`. -/
structure ExportDims where
  size : ℝ
  radius : ℝ
  cx : ℝ
  cy : ℝ

/-- `calculateExportDimensions` (`src/export.js:44-58`), as a function of the
values it reads from the DOM: the container rectangle, the circle-size
multiplier, the show-labels toggle and the label-distance value. -/
noncomputable def calculateExportDimensions (containerRect : RectWH)
    (circleSizeValue : ℝ) (showLabelsChecked : Bool) (labelDistanceValue : ℝ) :
    ExportDims :=
  let dims := calculateDimensions containerRect circleSizeValue
  let labelDist := if showLabelsChecked then labelDistanceValue else 0
  let totalRadius := dims.radius + labelDist
  let size := max DEFAULTS.EXPORT_MIN_SIZE
    (((⌈(totalRadius + DEFAULTS.EXPORT_PADDING) * 2⌉ : ℤ) : ℝ))
  ⟨size, dims.radius, size / 2, size / 2⟩

/-! ### `src/export.js` / `src/script.js` : the rendered scene -/

/-- A drawable SVG scene node (the attributes the source sets that carry
geometry or content; presentation-only attributes are the string fields). -/
inductive SVGNode where
  | rect (x y w h : RNum) (fill : String)
  | circle (cx cy r : RNum) (fill stroke : String)
  | line (x1 y1 x2 y2 : RNum) (stroke : String)
  | text (x y : RNum) (fontSize : ℝ) (content : String)
  | g (children : List SVGNode)

/-- A complete export SVG document: square root element plus children. -/
structure SVGRoot where
  width : ℝ
  height : ℝ
  children : List SVGNode

/-- One radial ray (`drawRays` in `src/script.js:54-69`, and the ray loop of
`createExportSVG` in `src/export.js`): a line from the centre to the point of
the circle at the item's angle. -/
noncomputable def rayNode (cx cy radius : ℝ) (item : PlacedItem) : SVGNode :=
  let angle := jsMul (jsSub item.deg (.fin 90)) (.fin (Real.pi / 180))
  SVGNode.line (.fin cx) (.fin cy)
    (jsAdd (.fin cx) (jsMul (jsCos angle) (.fin radius)))
    (jsAdd (.fin cy) (jsMul (jsSin angle) (.fin radius))) "black"

/-- One point-plus-optional-label group (`drawPointsAndLabels` in
`src/script.js:75-114`, and the matching loop of `createExportSVG`): the
filled dot at the item's position, plus, when labels are shown, the label
text on the concentric circle of radius `radius + labelDist`. -/
noncomputable def pointGroupNode (cx cy radius labelDist fontSize : ℝ)
    (showLabels : Bool) (item : PlacedItem) : SVGNode :=
  let pt := SVGNode.circle item.x item.y (.fin DEFAULTS.POINT_RADIUS) "black" "none"
  if showLabels then
    let angle := jsMul (jsSub item.deg (.fin 90)) (.fin (Real.pi / 180))
    let labelRadius := radius + labelDist
    SVGNode.g [pt,
      SVGNode.text (jsAdd (.fin cx) (jsMul (jsCos angle) (.fin labelRadius)))
                   (jsAdd (.fin cy) (jsMul (jsSin angle) (.fin labelRadius)))
                   fontSize item.raw]
  else SVGNode.g [pt]

/-- The values `createExportSVG` reads from the DOM, bundled. -/
structure ExportConfig where
  containerRect : RectWH
  circleSizeValue : ℝ
  labelDistanceValue : ℝ
  labelSizeValue : ℝ
  showLabelsChecked : Bool
  showCircleChecked : Bool
  showRaysChecked : Bool
  periodText : String
  intervalsText : String

open Classical in
/-- `createExportSVG` (`src/export.js:65-165`): compute the export frame; if
the period is not finite or is zero, return the background-only white square;
otherwise background, optional circle guide, optional rays, then one
point/label group per item. -/
noncomputable def createExportSVG (cfg : ExportConfig) : SVGRoot :=
  let dims := calculateExportDimensions cfg.containerRect cfg.circleSizeValue
      cfg.showLabelsChecked cfg.labelDistanceValue
  let periodCents := parsePeriodToCents cfg.periodText
  let bg := SVGNode.rect (.fin 0) (.fin 0) (.fin dims.size) (.fin dims.size) "white"
  if ¬ ((∃ x, periodCents = .fin x) ∧ periodCents ≠ .fin 0) then
    ⟨dims.size, dims.size, [bg]⟩
  else
    let items := buildItems cfg.periodText cfg.intervalsText dims.cx dims.cy
        dims.radius periodCents
    ⟨dims.size, dims.size,
      bg ::
      ((if cfg.showCircleChecked then
          [SVGNode.circle (.fin dims.cx) (.fin dims.cy) (.fin dims.radius) "none" "black"]
        else []) ++
       (if cfg.showRaysChecked then items.map (rayNode dims.cx dims.cy dims.radius) else []) ++
       items.map (pointGroupNode dims.cx dims.cy dims.radius cfg.labelDistanceValue
         cfg.labelSizeValue cfg.showLabelsChecked))⟩

/-- The values the live `draw` function reads from the DOM, bundled (the
panel measurements stand for the `getBoundingClientRect` / `getComputedStyle`
reads). -/
structure LiveConfig where
  panelRect : RectWH
  headerH : ℝ
  padTop : ℝ
  padBottom : ℝ
  circleSizeValue : ℝ
  labelDistanceValue : ℝ
  labelSizeValue : ℝ
  showLabelsChecked : Bool
  showCircleChecked : Bool
  showRaysChecked : Bool
  periodText : String
  intervalsText : String

open Classical in
/-- The live `draw` function (`src/script.js:118-193`), as the list of nodes
appended to the cleared on-screen SVG: square size from the available panel
area, background first, then — only when the period is finite and non-zero —
the optional circle guide, optional rays, and point/label groups. -/
noncomputable def drawScene (cfg : LiveConfig) : List SVGNode :=
  let availableH := max 0 (cfg.panelRect.height - cfg.headerH - cfg.padTop -
      cfg.padBottom - 18)
  let availableW := cfg.panelRect.width
  let squareSize := max DEFAULTS.MIN_DIMENSION ((⌊min availableW availableH⌋ : ℤ) : ℝ)
  let dims := calculateDimensions ⟨squareSize, squareSize⟩ cfg.circleSizeValue
  let bg := SVGNode.rect (.fin 0) (.fin 0) (.fin dims.W) (.fin dims.H) "white"
  let periodCents := parsePeriodToCents cfg.periodText
  if ¬ ((∃ x, periodCents = .fin x) ∧ periodCents ≠ .fin 0) then [bg]
  else
    let items := buildItems cfg.periodText cfg.intervalsText dims.cx dims.cy
        dims.radius periodCents
    bg ::
    ((if cfg.showCircleChecked then
        [SVGNode.circle (.fin dims.cx) (.fin dims.cy) (.fin dims.radius) "none" "black"]
      else []) ++
     (if cfg.showRaysChecked then items.map (rayNode dims.cx dims.cy dims.radius) else []) ++
     items.map (pointGroupNode dims.cx dims.cy dims.radius cfg.labelDistanceValue
       cfg.labelSizeValue cfg.showLabelsChecked))

/-! ### Predicates used to state the claims -/

/-- When the angle is finite, it lies in the open interval `(-360, 360)`. -/
def degWithin : RNum → Prop
  | .fin x => -360 < x ∧ x < 360
  | _ => True

/-- The angle is finite and lies in `[0, 360)`. -/
def degIn0360 : RNum → Prop
  | .fin x => 0 ≤ x ∧ x < 360
  | _ => False

/-- The cents value is finite and its quotient by the period is nonnegative. -/
def quotNonneg : RNum → ℝ → Prop
  | .fin c, p => 0 ≤ c / p
  | _, _ => False

/-! ### Helper lemmas: `takeWhile` / `dropWhile` / trimming -/

lemma mem_takeWhile_pred {α : Type} {p : α → Bool} {l : List α} {a : α}
    (h : a ∈ l.takeWhile p) : p a = true := by
  induction l with
  | nil => simp [List.takeWhile] at h
  | cons b t ih =>
      rw [List.takeWhile_cons] at h
      by_cases hb : p b = true
      · rw [if_pos hb] at h
        rcases List.mem_cons.mp h with rfl | h2
        · exact hb
        · exact ih h2
      · rw [if_neg hb] at h
        simp at h

lemma takeWhile_dropWhile_of_append {α : Type} (p : α → Bool) (l1 l2 : List α)
    (h1 : ∀ a ∈ l1, p a = true)
    (h2 : ∀ a, l2.head? = some a → p a = false) :
    (l1 ++ l2).takeWhile p = l1 ∧ (l1 ++ l2).dropWhile p = l2 := by
  induction l1 with
  | nil =>
      cases l2 with
      | nil => simp
      | cons b t =>
          have hb := h2 b rfl
          simp [List.takeWhile_cons, List.dropWhile_cons, hb]
  | cons a t ih =>
      have ha := h1 a (List.mem_cons_self a t)
      have ht := ih (fun x hx => h1 x (List.mem_cons_of_mem _ hx))
      simp [List.takeWhile_cons, List.dropWhile_cons, ha, ht.1, ht.2]

lemma dropWhile_eq_self_of {α : Type} (p : α → Bool) (l : List α)
    (h : ∀ a, l.head? = some a → p a = false) : l.dropWhile p = l := by
  cases l with
  | nil => rfl
  | cons a t => simp [List.dropWhile_cons, h a rfl]

lemma head?_dropWhile_pred {α : Type} (p : α → Bool) (l : List α) :
    ∀ a, (l.dropWhile p).head? = some a → p a = false := by
  induction l with
  | nil => intro a h; simp at h
  | cons b t ih =>
      intro a h
      rw [List.dropWhile_cons] at h
      by_cases hb : p b = true
      · rw [if_pos hb] at h; exact ih a h
      · rw [if_neg hb] at h
        rw [List.head?_cons, Option.some.injEq] at h
        subst h
        simpa using hb

lemma trimChars_eq_self_of (cs : List Char)
    (h : ∀ c ∈ cs, c.isWhitespace = false) : trimChars cs = cs := by
  unfold trimChars
  have h1 : cs.dropWhile Char.isWhitespace = cs := by
    apply dropWhile_eq_self_of
    intro a ha
    apply h
    cases cs with
    | nil => simp at ha
    | cons b t =>
        rw [List.head?_cons, Option.some.injEq] at ha
        subst ha
        exact List.mem_cons_self _ _
  rw [h1]
  have h2 : cs.reverse.dropWhile Char.isWhitespace = cs.reverse := by
    apply dropWhile_eq_self_of
    intro a ha
    apply h
    rw [← List.mem_reverse]
    cases hrev : cs.reverse with
    | nil => rw [hrev] at ha; simp at ha
    | cons b t =>
        rw [hrev] at ha
        rw [List.head?_cons, Option.some.injEq] at ha
        subst ha
        exact List.mem_cons_self _ _
  rw [h2, List.reverse_reverse]

lemma ltrim_idem (cs : List Char) :
    (cs.dropWhile Char.isWhitespace).dropWhile Char.isWhitespace
      = cs.dropWhile Char.isWhitespace :=
  dropWhile_eq_self_of _ _ (head?_dropWhile_pred _ _)

lemma trimChars_idem (cs : List Char) : trimChars (trimChars cs) = trimChars cs := by
  have hBhead := head?_dropWhile_pred Char.isWhitespace cs
  generalize hB : cs.dropWhile Char.isWhitespace = B at hBhead
  have htc : trimChars cs = (B.reverse.dropWhile Char.isWhitespace).reverse := by
    unfold trimChars
    rw [hB]
  have hsplit : B = (B.reverse.dropWhile Char.isWhitespace).reverse ++
      (B.reverse.takeWhile Char.isWhitespace).reverse := by
    have h0 := congrArg List.reverse
      (List.takeWhile_append_dropWhile Char.isWhitespace B.reverse)
    rw [List.reverse_append, List.reverse_reverse] at h0
    exact h0.symm
  rw [htc]
  unfold trimChars
  have hstep : (B.reverse.dropWhile Char.isWhitespace).reverse.dropWhile Char.isWhitespace
      = (B.reverse.dropWhile Char.isWhitespace).reverse := by
    apply dropWhile_eq_self_of
    intro a ha
    apply hBhead
    rw [hsplit]
    cases hcase : (B.reverse.dropWhile Char.isWhitespace).reverse with
    | nil => rw [hcase] at ha; simp at ha
    | cons b u =>
        rw [hcase] at ha
        rw [List.head?_cons, Option.some.injEq] at ha
        subst ha
        rfl
  rw [hstep, List.reverse_reverse, ltrim_idem]

lemma jsTrim_idem (s : String) : jsTrim (jsTrim s) = jsTrim s := by
  unfold jsTrim
  rw [show (String.mk (trimChars s.data)).data = trimChars s.data from rfl, trimChars_idem]

/-! ### Character-class facts -/

lemma eq_cons_of_head? {α : Type} {l : List α} {a : α} (h : l.head? = some a) :
    l = a :: l.tail := by
  cases l with
  | nil => simp at h
  | cons b t =>
      rw [List.head?_cons, Option.some.injEq] at h
      subst h
      rfl

lemma isDigit_not_ws {c : Char} (h : c.isDigit = true) : c.isWhitespace = false := by
  by_contra hw
  rw [Bool.not_eq_false] at hw
  simp only [Char.isWhitespace, Bool.or_eq_true, decide_eq_true_eq, or_assoc] at hw
  rcases hw with h1 | h1 | h1 | h1 <;> subst h1 <;> exact absurd h (by decide)

lemma isDigit_ne_slash {c : Char} (h : c.isDigit = true) : c ≠ '/' := by
  intro he
  subst he
  exact absurd h (by decide)

lemma isDigit_ne_plus {c : Char} (h : c.isDigit = true) : c ≠ '+' := by
  intro he
  subst he
  exact absurd h (by decide)

lemma isDigit_ne_minus {c : Char} (h : c.isDigit = true) : c ≠ '-' := by
  intro he
  subst he
  exact absurd h (by decide)

lemma isDigit_ne_hash {c : Char} (h : c.isDigit = true) : c ≠ '#' := by
  intro he
  subst he
  exact absurd h (by decide)

lemma isDigit_ne_upperI {c : Char} (h : c.isDigit = true) : c ≠ 'I' := by
  intro he
  subst he
  exact absurd h (by decide)

lemma isDigit_not_unit {c : Char} (h : c.isDigit = true) : isUnitChar c = false := by
  by_contra hu
  rw [Bool.not_eq_false] at hu
  simp only [isUnitChar, Bool.or_eq_true, decide_eq_true_eq, or_assoc] at hu
  rcases hu with h1 | h1 | h1 <;> subst h1 <;> exact absurd h (by decide)

lemma isUnit_not_ws {c : Char} (h : isUnitChar c = true) : c.isWhitespace = false := by
  simp only [isUnitChar, Bool.or_eq_true, decide_eq_true_eq, or_assoc] at h
  rcases h with h1 | h1 | h1 <;> subst h1 <;> decide

lemma isUnit_ne_slash {c : Char} (h : isUnitChar c = true) : c ≠ '/' := by
  simp only [isUnitChar, Bool.or_eq_true, decide_eq_true_eq, or_assoc] at h
  rcases h with h1 | h1 | h1 <;> subst h1 <;> decide

/-! ### Decomposition of cents-grammar matches -/

lemma isUnitSuffix_eq {l : List Char} (h : isUnitSuffix l = true) :
    ∃ u, l = [u] ∧ isUnitChar u = true := by
  unfold isUnitSuffix at h
  rw [Bool.and_eq_true] at h
  obtain ⟨h1, h2⟩ := h
  rw [decide_eq_true_eq] at h1
  obtain ⟨u, rfl⟩ := List.length_eq_one.mp h1
  refine ⟨u, rfl, ?_⟩
  simpa using h2

lemma centsCore_decomp (cs : List Char) (h : centsCore cs = true) :
    ∃ ds rest, cs = ds ++ rest ∧ ds ≠ [] ∧ (∀ c ∈ ds, c.isDigit = true) ∧
      (rest = [] ∨
       (∃ u, rest = [u] ∧ isUnitChar u = true) ∨
       (∃ fs tl, rest = '.' :: (fs ++ tl) ∧ fs ≠ [] ∧
         (∀ c ∈ fs, c.isDigit = true) ∧
         (tl = [] ∨ ∃ u, tl = [u] ∧ isUnitChar u = true))) := by
  unfold centsCore at h
  rw [Bool.and_eq_true] at h
  obtain ⟨hds, hrest⟩ := h
  refine ⟨cs.takeWhile Char.isDigit, cs.dropWhile Char.isDigit,
    (List.takeWhile_append_dropWhile _ _).symm, ?_,
    fun c hc => mem_takeWhile_pred hc, ?_⟩
  · intro he
    rw [he] at hds
    simp at hds
  · rw [Bool.or_eq_true] at hrest
    rcases hrest with hre | hrest
    · left
      exact List.isEmpty_iff.mp hre
    · split at hrest
      · rename_i hdot
        rw [Bool.and_eq_true, Bool.or_eq_true] at hrest
        obtain ⟨hfs, hr3⟩ := hrest
        right; right
        refine ⟨(cs.dropWhile Char.isDigit).tail.takeWhile Char.isDigit,
          (cs.dropWhile Char.isDigit).tail.dropWhile Char.isDigit, ?_, ?_,
          fun c hc => mem_takeWhile_pred hc, ?_⟩
        · rw [List.takeWhile_append_dropWhile]
          exact eq_cons_of_head? hdot
        · intro he
          rw [he] at hfs
          simp at hfs
        · rcases hr3 with h3 | h3
          · exact Or.inl (List.isEmpty_iff.mp h3)
          · exact Or.inr (isUnitSuffix_eq h3)
      · right; left
        exact isUnitSuffix_eq hrest

lemma centsReAux_decomp (cs : List Char) (h : centsReAux cs = true) :
    ∃ sgn body, cs = sgn ++ body ∧ (sgn = [] ∨ sgn = ['-']) ∧ centsCore body = true := by
  unfold centsReAux at h
  split at h
  · rename_i hh
    exact ⟨['-'], cs.tail, eq_cons_of_head? hh, Or.inr rfl, h⟩
  · exact ⟨[], cs, rfl, Or.inl rfl, h⟩

lemma centsCore_chars (cs : List Char) (h : centsCore cs = true) :
    ∀ c ∈ cs, c.isDigit = true ∨ c = '.' ∨ isUnitChar c = true := by
  obtain ⟨ds, rest, rfl, _, hds, hrest⟩ := centsCore_decomp cs h
  intro c hc
  rcases List.mem_append.mp hc with h1 | h1
  · exact Or.inl (hds c h1)
  · rcases hrest with rfl | ⟨u, rfl, hu⟩ | ⟨fs, t2, rfl, _, hfs, ht2⟩
    · simp at h1
    · rw [List.mem_singleton] at h1
      subst h1
      exact Or.inr (Or.inr hu)
    · rcases List.mem_cons.mp h1 with rfl | h2
      · exact Or.inr (Or.inl rfl)
      · rcases List.mem_append.mp h2 with h3 | h3
        · exact Or.inl (hfs c h3)
        · rcases ht2 with rfl | ⟨u, rfl, hu⟩
          · simp at h3
          · rw [List.mem_singleton] at h3
            subst h3
            exact Or.inr (Or.inr hu)

lemma centsReAux_chars (cs : List Char) (h : centsReAux cs = true) :
    ∀ c ∈ cs, c = '-' ∨ c.isDigit = true ∨ c = '.' ∨ isUnitChar c = true := by
  obtain ⟨sgn, body, rfl, hsgn, hbody⟩ := centsReAux_decomp cs h
  intro c hc
  rcases List.mem_append.mp hc with h1 | h1
  · rcases hsgn with rfl | rfl
    · simp at h1
    · rw [List.mem_singleton] at h1
      exact Or.inl h1
  · exact Or.inr (centsCore_chars body hbody c h1)

lemma centsReAux_no_ws (cs : List Char) (h : centsReAux cs = true) :
    ∀ c ∈ cs, c.isWhitespace = false := by
  intro c hc
  rcases centsReAux_chars cs h c hc with rfl | hd | rfl | hu
  · decide
  · exact isDigit_not_ws hd
  · decide
  · exact isUnit_not_ws hu

lemma centsReAux_no_slash (cs : List Char) (h : centsReAux cs = true) : '/' ∉ cs := by
  intro hc
  rcases centsReAux_chars cs h '/' hc with h1 | h1 | h1 | h1
  · exact absurd h1 (by decide)
  · exact absurd h1 (by decide)
  · exact absurd h1 (by decide)
  · exact absurd h1 (by decide)

/-! ### `numLit` / `jsNumber` on grammar-shaped strings -/

lemma numLit_digits (ds : List Char) (h1 : ds ≠ []) (h2 : ∀ c ∈ ds, c.isDigit = true) :
    ∃ q, numLit ds = some q := by
  have hsplit := takeWhile_dropWhile_of_append Char.isDigit ds [] h2
    (by intro a ha; simp at ha)
  rw [List.append_nil] at hsplit
  refine ⟨decVal ds [] * (10 : ℚ) ^ (0 : ℤ), ?_⟩
  unfold numLit
  rw [hsplit.1, hsplit.2]
  rw [if_neg (by simp)]
  rw [if_neg (by simpa using h1)]
  rfl

lemma numLit_digits_dot (ds fs : List Char) (hds : ds ≠ [])
    (h2 : ∀ c ∈ ds, c.isDigit = true) (hfs : fs ≠ [])
    (h3 : ∀ c ∈ fs, c.isDigit = true) :
    ∃ q, numLit (ds ++ '.' :: fs) = some q := by
  have hsplit := takeWhile_dropWhile_of_append Char.isDigit ds ('.' :: fs) h2
    (by
      intro a ha
      rw [List.head?_cons, Option.some.injEq] at ha
      subst ha
      decide)
  have hsplit2 := takeWhile_dropWhile_of_append Char.isDigit fs [] h3
    (by intro a ha; simp at ha)
  rw [List.append_nil] at hsplit2
  refine ⟨decVal ds fs * (10 : ℚ) ^ (0 : ℤ), ?_⟩
  unfold numLit
  rw [hsplit.1, hsplit.2]
  rw [if_pos (by rw [List.head?_cons])]
  simp only [List.tail_cons, hsplit2.1, hsplit2.2]
  rw [if_neg (by simp [hds])]
  rfl

lemma centsCore_digits (ds : List Char) (hne : ds ≠ [])
    (hds : ∀ c ∈ ds, c.isDigit = true) : centsCore ds = true := by
  have hsplit := takeWhile_dropWhile_of_append Char.isDigit ds [] hds
    (by intro a ha; simp at ha)
  rw [List.append_nil] at hsplit
  unfold centsCore
  rw [hsplit.1, hsplit.2]
  simp [hne]

lemma centsCore_digits_dot (ds fs : List Char) (hne : ds ≠ []) (hfs : fs ≠ [])
    (hds : ∀ c ∈ ds, c.isDigit = true) (hfsd : ∀ c ∈ fs, c.isDigit = true) :
    centsCore (ds ++ '.' :: fs) = true := by
  have hsplit := takeWhile_dropWhile_of_append Char.isDigit ds ('.' :: fs) hds
    (by
      intro a ha
      rw [List.head?_cons, Option.some.injEq] at ha
      subst ha
      decide)
  have hsplit2 := takeWhile_dropWhile_of_append Char.isDigit fs [] hfsd
    (by intro a ha; simp at ha)
  rw [List.append_nil] at hsplit2
  unfold centsCore
  rw [hsplit.1, hsplit.2]
  simp only [List.head?_cons, List.tail_cons, hsplit2.1, hsplit2.2]
  simp [hne, hfs]

lemma stripUnitChars_shape (ds rest : List Char)
    (hds : ∀ c ∈ ds, c.isDigit = true)
    (hrest : rest = [] ∨ (∃ u, rest = [u] ∧ isUnitChar u = true) ∨
      (∃ fs tl, rest = '.' :: (fs ++ tl) ∧ fs ≠ [] ∧ (∀ c ∈ fs, c.isDigit = true) ∧
        (tl = [] ∨ ∃ u, tl = [u] ∧ isUnitChar u = true))) :
    ∃ tail2, stripUnitChars (ds ++ rest) = ds ++ tail2 ∧
      (tail2 = [] ∨ ∃ fs, tail2 = '.' :: fs ∧ fs ≠ [] ∧ ∀ c ∈ fs, c.isDigit = true) := by
  have hfil : ds.filter (fun c => !isUnitChar c) = ds := by
    rw [List.filter_eq_self]
    intro a ha
    simp [isDigit_not_unit (hds a ha)]
  have hdot : isUnitChar '.' = false := by decide
  unfold stripUnitChars
  rw [List.filter_append, hfil]
  rcases hrest with rfl | ⟨u, rfl, hu⟩ | ⟨fs, tl, rfl, hfs, hfsd, htl⟩
  · exact ⟨[], by simp, Or.inl rfl⟩
  · refine ⟨[], ?_, Or.inl rfl⟩
    simp [List.filter_cons, hu]
  · have hfil2 : fs.filter (fun c => !isUnitChar c) = fs := by
      rw [List.filter_eq_self]
      intro a ha
      simp [isDigit_not_unit (hfsd a ha)]
    have hfil3 : tl.filter (fun c => !isUnitChar c) = [] := by
      rcases htl with rfl | ⟨u, rfl, hu⟩
      · rfl
      · simp [List.filter_cons, hu]
    refine ⟨'.' :: fs, ?_, Or.inr ⟨fs, rfl, hfs, hfsd⟩⟩
    simp [List.filter_cons, List.filter_append, hfil2, hfil3, hdot]

lemma jsNumber_eval (l : List Char) (hl : ∀ c ∈ l, c.isWhitespace = false)
    (hne2 : l ≠ []) (hhp : l.head? ≠ some '+') (hhm : l.head? ≠ some '-') :
    jsNumber (String.mk l) = jsNumberBody l false := by
  unfold jsNumber
  rw [show (String.mk l).data = l from rfl, trimChars_eq_self_of l hl]
  rw [if_neg (by simpa using hne2), if_neg hhp, if_neg hhm]

lemma jsNumber_eval_neg (l : List Char) (hl : ∀ c ∈ l, c.isWhitespace = false) :
    jsNumber (String.mk ('-' :: l)) = jsNumberBody l true := by
  unfold jsNumber
  rw [show (String.mk ('-' :: l)).data = '-' :: l from rfl,
    trimChars_eq_self_of _ (by
      intro c hc
      rcases List.mem_cons.mp hc with rfl | h2
      · decide
      · exact hl c h2)]
  rw [if_neg (by simp)]
  rw [if_neg (by
    intro hx
    rw [List.head?_cons, Option.some.injEq] at hx
    exact absurd hx (by decide))]
  rw [if_pos (show ('-' :: l).head? = some '-' from rfl)]
  rfl

lemma jsNumberBody_eval (l : List Char) (hinf : l ≠ "Infinity".data)
    (q : ℚ) (hq : numLit l = some q) (neg : Bool) :
    jsNumberBody l neg = .fin (if neg then -q else q) := by
  unfold jsNumberBody
  rw [if_neg hinf, hq]

lemma centsReAux_ne_nil (cs : List Char) (h : centsReAux cs = true) : cs ≠ [] := by
  intro he
  subst he
  simp [centsReAux, centsCore] at h

lemma centsReAux_head_not_hash (cs : List Char) (h : centsReAux cs = true) :
    cs.head? ≠ some '#' := by
  obtain ⟨sgn, body, rfl, hsgn, hbody⟩ := centsReAux_decomp _ h
  obtain ⟨ds, rest, rfl, hne, hds, _⟩ := centsCore_decomp _ hbody
  rcases hsgn with rfl | rfl
  · cases ds with
    | nil => exact absurd rfl hne
    | cons d t =>
        intro hx
        simp only [List.nil_append, List.cons_append, List.head?_cons,
          Option.some.injEq] at hx
        exact isDigit_ne_hash (hds d (List.mem_cons_self _ _)) hx
  · intro hx
    simp only [List.cons_append, List.head?_cons, Option.some.injEq] at hx
    exact absurd hx (by decide)

lemma jsNumber_strip_fin (cs : List Char) (h : centsReAux cs = true) :
    ∃ q, jsNumber (String.mk (stripUnitChars cs)) = QNum.fin q := by
  obtain ⟨sgn, body, rfl, hsgn, hbody⟩ := centsReAux_decomp _ h
  obtain ⟨ds, rest, rfl, hne, hds, hrest⟩ := centsCore_decomp _ hbody
  obtain ⟨tail2, hstrip, htail2⟩ := stripUnitChars_shape ds rest hds hrest
  have hq : ∃ q, numLit (ds ++ tail2) = some q := by
    rcases htail2 with rfl | ⟨fs, rfl, hfs, hfsd⟩
    · rw [List.append_nil]
      exact numLit_digits ds hne hds
    · exact numLit_digits_dot ds fs hne hds hfs hfsd
  obtain ⟨q0, hq0⟩ := hq
  have hchars : ∀ c ∈ ds ++ tail2, c.isWhitespace = false := by
    intro c hc
    rcases List.mem_append.mp hc with h1 | h1
    · exact isDigit_not_ws (hds c h1)
    · rcases htail2 with rfl | ⟨fs, rfl, hfs, hfsd⟩
      · simp at h1
      · rcases List.mem_cons.mp h1 with rfl | h2
        · decide
        · exact isDigit_not_ws (hfsd c h2)
  have hinf : (ds ++ tail2) ≠ "Infinity".data := by
    intro heq
    cases ds with
    | nil => exact hne rfl
    | cons d t =>
        have hd := hds d (List.mem_cons_self _ _)
        have h1 : ((d :: t) ++ tail2).head? = some d := rfl
        rw [heq] at h1
        have h2 : ("Infinity".data).head? = some 'I' := rfl
        rw [h2, Option.some.injEq] at h1
        exact isDigit_ne_upperI hd h1.symm
  rcases hsgn with rfl | rfl
  · have hstrip2 : stripUnitChars ([] ++ (ds ++ rest)) = ds ++ tail2 := by
      rw [List.nil_append, hstrip]
    rw [hstrip2]
    refine ⟨q0, ?_⟩
    obtain ⟨d, t, rfl⟩ : ∃ d t, ds = d :: t := by
      cases ds with
      | nil => exact absurd rfl hne
      | cons d t => exact ⟨d, t, rfl⟩
    have hd := hds d (List.mem_cons_self _ _)
    rw [jsNumber_eval _ hchars (by simp)
      (by
        intro hx
        simp only [List.cons_append, List.head?_cons, Option.some.injEq] at hx
        exact isDigit_ne_plus hd hx)
      (by
        intro hx
        simp only [List.cons_append, List.head?_cons, Option.some.injEq] at hx
        exact isDigit_ne_minus hd hx)]
    rw [jsNumberBody_eval _ hinf q0 hq0 false]
    simp
  · have hstrip2 : stripUnitChars (['-'] ++ (ds ++ rest)) = '-' :: (ds ++ tail2) := by
      have hcons : stripUnitChars ('-' :: (ds ++ rest))
          = '-' :: stripUnitChars (ds ++ rest) := by
        unfold stripUnitChars
        rw [List.filter_cons_of_pos (by decide)]
      rw [show ['-'] ++ (ds ++ rest) = '-' :: (ds ++ rest) from rfl, hcons, hstrip]
    rw [hstrip2]
    refine ⟨-q0, ?_⟩
    rw [jsNumber_eval_neg _ hchars]
    rw [jsNumberBody_eval _ hinf q0 hq0 true]
    simp

lemma centsReAux_strip (cs : List Char) (h : centsReAux cs = true) :
    centsReAux (stripUnitChars cs) = true ∧
    stripUnitChars (stripUnitChars cs) = stripUnitChars cs ∧
    (∀ c ∈ stripUnitChars cs, c.isWhitespace = false) := by
  obtain ⟨sgn, body, rfl, hsgn, hbody⟩ := centsReAux_decomp _ h
  obtain ⟨ds, rest, rfl, hne, hds, hrest⟩ := centsCore_decomp _ hbody
  obtain ⟨tail2, hstrip, htail2⟩ := stripUnitChars_shape ds rest hds hrest
  have hcore : centsCore (ds ++ tail2) = true := by
    rcases htail2 with rfl | ⟨fs, rfl, hfs, hfsd⟩
    · rw [List.append_nil]
      exact centsCore_digits ds hne hds
    · exact centsCore_digits_dot ds fs hne hfs hds hfsd
  have hnounit : ∀ c ∈ ds ++ tail2, isUnitChar c = false := by
    intro c hc
    rcases List.mem_append.mp hc with h1 | h1
    · exact isDigit_not_unit (hds c h1)
    · rcases htail2 with rfl | ⟨fs, rfl, hfs, hfsd⟩
      · simp at h1
      · rcases List.mem_cons.mp h1 with rfl | h2
        · decide
        · exact isDigit_not_unit (hfsd c h2)
  have hchars : ∀ c ∈ ds ++ tail2, c.isWhitespace = false := by
    intro c hc
    rcases List.mem_append.mp hc with h1 | h1
    · exact isDigit_not_ws (hds c h1)
    · rcases htail2 with rfl | ⟨fs, rfl, hfs, hfsd⟩
      · simp at h1
      · rcases List.mem_cons.mp h1 with rfl | h2
        · decide
        · exact isDigit_not_ws (hfsd c h2)
  rcases hsgn with rfl | rfl
  · have hstrip2 : stripUnitChars ([] ++ (ds ++ rest)) = ds ++ tail2 := by
      rw [List.nil_append, hstrip]
    rw [hstrip2]
    refine ⟨?_, ?_, hchars⟩
    · unfold centsReAux
      rw [if_neg (by
        intro hx
        obtain ⟨d, t, rfl⟩ : ∃ d t, ds = d :: t := by
          cases ds with
          | nil => exact absurd rfl hne
          | cons d t => exact ⟨d, t, rfl⟩
        simp only [List.cons_append, List.head?_cons, Option.some.injEq] at hx
        exact isDigit_ne_minus (hds d (List.mem_cons_self _ _)) hx)]
      exact hcore
    · unfold stripUnitChars
      rw [List.filter_eq_self]
      intro a ha
      simp [hnounit a ha]
  · have hstrip2 : stripUnitChars (['-'] ++ (ds ++ rest)) = '-' :: (ds ++ tail2) := by
      have hcons : stripUnitChars ('-' :: (ds ++ rest))
          = '-' :: stripUnitChars (ds ++ rest) := by
        unfold stripUnitChars
        rw [List.filter_cons_of_pos (by decide)]
      rw [show ['-'] ++ (ds ++ rest) = '-' :: (ds ++ rest) from rfl, hcons, hstrip]
    rw [hstrip2]
    refine ⟨?_, ?_, ?_⟩
    · unfold centsReAux
      rw [if_pos (show ('-' :: (ds ++ tail2)).head? = some '-' from rfl)]
      exact hcore
    · unfold stripUnitChars
      rw [List.filter_eq_self]
      intro a ha
      rcases List.mem_cons.mp ha with rfl | h2
      · decide
      · simp [hnounit a h2]
    · intro c hc
      rcases List.mem_cons.mp hc with rfl | h2
      · decide
      · exact hchars c h2

/-! ### Evaluation of the parsers along their two paths -/

lemma stripWS_ne_nil_of_grammar (s : String)
    (h : centsRe (stripWS (jsTrim s)) = true) : (jsTrim s).data ≠ [] := by
  intro he
  have h2 : (stripWS (jsTrim s)).data = [] := by
    unfold stripWS stripWSChars
    rw [he]
    rfl
  exact centsReAux_ne_nil _ h h2

lemma stripWS_head_hash (s : String)
    (h : centsRe (stripWS (jsTrim s)) = true) :
    (jsTrim s).data.head? ≠ some '#' := by
  intro hx
  have hcons := eq_cons_of_head? hx
  have h2 : (stripWS (jsTrim s)).data = '#' :: stripWSChars (jsTrim s).data.tail := by
    unfold stripWS stripWSChars
    rw [hcons]
    rw [List.filter_cons_of_pos (by decide)]
    rfl
  have := centsReAux_head_not_hash _ h
  rw [h2] at this
  exact this rfl

lemma parse_cents_path (s : String) (h : centsRe (stripWS (jsTrim s)) = true) :
    parseCentsOrRatioToCents s
      = some ⟨(jsNumber (stripUnits (stripWS (jsTrim s)))).toR, jsTrim s, .cents⟩ := by
  have hne := stripWS_ne_nil_of_grammar s h
  have hhash := stripWS_head_hash s h
  obtain ⟨q, hq⟩ := jsNumber_strip_fin ((stripWS (jsTrim s)).data) h
  simp only [parseCentsOrRatioToCents]
  rw [if_neg (by
    intro hcond
    rw [Bool.or_eq_true] at hcond
    rcases hcond with h1 | h2
    · exact hne (List.isEmpty_iff.mp h1)
    · rw [decide_eq_true_eq] at h2
      exact hhash h2)]
  rw [if_pos h]
  have hq2 : jsNumber (stripUnits (stripWS (jsTrim s))) = QNum.fin q := hq
  rw [hq2]
  rfl

lemma parse_ratio_path (s : String) (hne : (jsTrim s).data ≠ [])
    (hhash : (jsTrim s).data.head? ≠ some '#')
    (hre : centsRe (stripWS (jsTrim s)) = false) :
    parseCentsOrRatioToCents s
      = match parseRatio (jsTrim s) with
        | some r => some ⟨centsOfRatio r, jsTrim s, .ratio⟩
        | none => none := by
  simp only [parseCentsOrRatioToCents]
  rw [if_neg (by
    intro hcond
    rw [Bool.or_eq_true] at hcond
    rcases hcond with h1 | h2
    · exact hne (List.isEmpty_iff.mp h1)
    · rw [decide_eq_true_eq] at h2
      exact hhash h2)]
  rw [if_neg (by rw [hre]; simp)]

lemma parseRatio_slash (t : String) (htr : trimChars t.data = t.data)
    (hslash : '/' ∈ t.data) :
    parseRatio t
      = match jsNumber (String.mk ((t.data.splitOn '/').getD 0 [])),
              jsNumber (String.mk ((t.data.splitOn '/').getD 1 [])) with
        | .fin qa, .fin qb => if qb ≠ 0 then some (qa / qb) else none
        | _, _ => none := by
  simp only [parseRatio]
  rw [htr]
  rw [if_neg (by
    intro hcond
    exact (List.ne_nil_of_mem hslash) (List.isEmpty_iff.mp hcond))]
  rw [if_pos hslash]

lemma parseRatio_nonslash (t : String) (htr : trimChars t.data = t.data)
    (hne : t.data ≠ []) (hslash : '/' ∉ t.data) :
    parseRatio t
      = match jsNumber (String.mk t.data) with
        | .fin n => if 0 < n then some n else none
        | _ => none := by
  simp only [parseRatio]
  rw [htr]
  rw [if_neg (by
    intro hcond
    exact hne (List.isEmpty_iff.mp hcond))]
  rw [if_neg hslash]

lemma parsePeriod_cents_path (s : String) (h : centsRe (jsTrim s) = true) :
    parsePeriodToCents s = (jsNumber (stripUnits (jsTrim s))).toR := by
  have hne : (jsTrim s).data ≠ [] := centsReAux_ne_nil _ h
  simp only [parsePeriodToCents]
  rw [if_neg (by
    intro hcond
    exact hne (List.isEmpty_iff.mp hcond))]
  rw [if_pos h]

lemma parsePeriod_ratio_path (s : String) (hne : (jsTrim s).data ≠ [])
    (hre : centsRe (jsTrim s) = false) :
    parsePeriodToCents s
      = match parseRatio (jsTrim s) with
        | some r => centsOfRatio r
        | none => .nan := by
  simp only [parsePeriodToCents]
  rw [if_neg (by
    intro hcond
    exact hne (List.isEmpty_iff.mp hcond))]
  rw [if_neg (by rw [hre]; simp)]

/-! ### Angle-computation lemmas -/

lemma jsDiv_fin_fin (x y : ℝ) (hy : y ≠ 0) : jsDiv (.fin x) (.fin y) = .fin (x / y) := by
  simp only [jsDiv]
  rw [if_neg hy]

lemma jsMul_fin_fin (x y : ℝ) : jsMul (.fin x) (.fin y) = .fin (x * y) := rfl

lemma jsMod_fin_fin (x y : ℝ) (hy : y ≠ 0) :
    jsMod (.fin x) (.fin y) = .fin (x - y * (truncR (x / y) : ℝ)) := by
  simp only [jsMod]
  rw [if_neg hy]

lemma computeAngleDeg_fin (c p : ℝ) (hp : p ≠ 0) :
    computeAngleDeg (.fin c) (.fin p)
      = .fin (c / p * 360 - 360 * (truncR (c / p * 360 / 360) : ℝ)) := by
  unfold computeAngleDeg
  rw [jsDiv_fin_fin c p hp, jsMul_fin_fin, jsMod_fin_fin _ _ (by norm_num)]

lemma computeAngleDeg_nonfin (cp : RNum) (p : ℝ)
    (h : cp = .nan ∨ cp = .inf ∨ cp = .negInf) :
    computeAngleDeg cp (.fin p) = .nan := by
  rcases h with rfl | rfl | rfl
  · rfl
  · unfold computeAngleDeg
    rcases le_or_lt 0 p with h0 | h0
    · rw [show jsDiv RNum.inf (.fin p) = .inf from by simp [jsDiv, h0]]
      rw [show jsMul RNum.inf (.fin 360) = .inf from by norm_num [jsMul]]
      rfl
    · rw [show jsDiv RNum.inf (.fin p) = .negInf from by simp [jsDiv, h0.not_le]]
      rw [show jsMul RNum.negInf (.fin 360) = .negInf from by norm_num [jsMul]]
      rfl
  · unfold computeAngleDeg
    rcases le_or_lt 0 p with h0 | h0
    · rw [show jsDiv RNum.negInf (.fin p) = .negInf from by simp [jsDiv, h0]]
      rw [show jsMul RNum.negInf (.fin 360) = .negInf from by norm_num [jsMul]]
      rfl
    · rw [show jsDiv RNum.negInf (.fin p) = .inf from by simp [jsDiv, h0.not_le]]
      rw [show jsMul RNum.inf (.fin 360) = .inf from by norm_num [jsMul]]
      rfl

lemma jsRem360_bounds (t : ℝ) :
    -360 < t - 360 * (truncR (t / 360) : ℝ) ∧ t - 360 * (truncR (t / 360) : ℝ) < 360 ∧
    (0 ≤ t → 0 ≤ t - 360 * (truncR (t / 360) : ℝ)) := by
  have e : t / 360 * 360 = t := div_mul_cancel₀ t (by norm_num)
  unfold truncR
  rcases le_or_lt 0 t with h0 | h0
  · have hq : (0:ℝ) ≤ t / 360 := by positivity
    rw [if_pos hq]
    have h1 : (⌊t / 360⌋ : ℝ) ≤ t / 360 := Int.floor_le _
    have h2 : t / 360 < ⌊t / 360⌋ + 1 := Int.lt_floor_add_one _
    refine ⟨by nlinarith, by nlinarith, fun _ => by nlinarith⟩
  · have hq : ¬ (0:ℝ) ≤ t / 360 := by
      rw [not_le]
      exact div_neg_of_neg_of_pos h0 (by norm_num)
    rw [if_neg hq]
    have h1 : t / 360 ≤ (⌈t / 360⌉ : ℝ) := Int.le_ceil _
    have h2 : (⌈t / 360⌉ : ℝ) < t / 360 + 1 := Int.ceil_lt_add_one _
    exact ⟨by nlinarith, by nlinarith, fun hge => absurd hge (not_le.mpr h0)⟩

/-! ### Claim theorems -/

/-- Claim C8: for an available panel of 400×400 with size multiplier 1.0 the
computed radius is `max(20, 400/2 - 60) = 140`, and with labels shown at
offset 35 the export frame size is `max(300, ceil((140 + 35 + 30) * 2)) = 410`. -/
theorem C8_export_frame_size :
    (calculateDimensions ⟨400, 400⟩ 1).radius
      = max DEFAULTS.MIN_RADIUS (400 / 2 - 60) ∧
    (calculateDimensions ⟨400, 400⟩ 1).radius = 140 ∧
    (calculateExportDimensions ⟨400, 400⟩ 1 true 35).size = 410 := by
  have h1 : (calculateDimensions ⟨400, 400⟩ 1).radius = 140 := by
    unfold calculateDimensions DEFAULTS.MIN_DIMENSION DEFAULTS.PADDING DEFAULTS.MIN_RADIUS
    norm_num
  refine ⟨?_, h1, ?_⟩
  · rw [h1]
    unfold DEFAULTS.MIN_RADIUS
    norm_num
  · have h2 : (calculateExportDimensions ⟨400, 400⟩ 1 true 35).size
        = max (300 : ℝ)
            (((⌈((calculateDimensions ⟨400, 400⟩ 1).radius + 35 + 30) * 2⌉ : ℤ) : ℝ)) := rfl
    rw [h2, h1]
    have hceil : ⌈((140 : ℝ) + 35 + 30) * 2⌉ = (410 : ℤ) := by
      rw [Int.ceil_eq_iff]
      constructor <;> norm_num
    rw [hceil]
    norm_num

/-- Claim C6: the first element of `buildItems` is always the period item —
cents 0, the normalised period label, type `period`, angle 0, positioned at
the top of the circle `(cx, cy - radius)` — stated under the claim's
precondition that the period cents value is finite and non-zero, and
regardless of the interval text. -/
theorem C6_first_item_is_period (pv iv : String) (cx cy radius pc : ℝ)
    (hpc : pc ≠ 0) :
    (buildItems pv iv cx cy radius (.fin pc)).head?
      = some ⟨.fin 0, normalizePeriodLabel pv (.fin pc), .period, .fin 0,
          .fin cx, .fin (cy - radius)⟩ := rfl

/-- Witness for C6 at period text `"1200"`, intervals `"700\n3/2"`,
centre (0,0), radius 1, period 1200; the normalised label evaluates to
`"1200"`. -/
theorem C6_witness :
    (1200 : ℝ) ≠ 0 ∧
    (buildItems "1200" "700\n3/2" 0 0 1 (.fin 1200)).head?
      = some ⟨.fin 0, normalizePeriodLabel "1200" (.fin 1200), .period, .fin 0,
          .fin 0, .fin (0 - 1)⟩ ∧
    normalizePeriodLabel "1200" (.fin 1200) = "1200" :=
  ⟨by norm_num, C6_first_item_is_period "1200" "700\n3/2" 0 0 1 1200 (by norm_num), rfl⟩

/-- Claim C2 (amended): for a finite non-zero period, every placed item's
`deg` equals the JavaScript remainder `((cents / periodCents) * 360) % 360`;
when that remainder is finite it lies in the open interval `(-360, 360)`,
and it lies in `[0, 360)` whenever the item's cents divided by the period is
nonnegative.  (The original claim's `[0, 360)` fails for opposite-sign
cents/period, because the JS `%` keeps the dividend's sign — see the
counterexample.) -/
theorem C2_angle_spec (pv iv : String) (cx cy radius pc : ℝ) (hpc : pc ≠ 0) :
    ∀ it ∈ buildItems pv iv cx cy radius (.fin pc),
      it.deg = computeAngleDeg it.cents (.fin pc) ∧
      degWithin it.deg ∧
      (quotNonneg it.cents pc → degIn0360 it.deg) := by
  intro it hit
  rcases List.mem_cons.mp hit with rfl | hmem
  · refine ⟨?_, ?_, ?_⟩
    · show RNum.fin 0 = computeAngleDeg (.fin 0) (.fin pc)
      rw [computeAngleDeg_fin 0 pc hpc]
      norm_num [truncR]
    · show degWithin (.fin 0)
      unfold degWithin
      norm_num
    · intro _
      show degIn0360 (.fin 0)
      unfold degIn0360
      norm_num
  · obtain ⟨line, hline, hplace⟩ := List.mem_filterMap.mp hmem
    obtain ⟨tok, htok, hmap⟩ := Option.map_eq_some'.mp hplace
    subst hmap
    refine ⟨rfl, ?_, ?_⟩
    · show degWithin (computeAngleDeg tok.cents (.fin pc))
      cases hc : tok.cents with
      | fin c =>
          rw [computeAngleDeg_fin c pc hpc]
          have hb := jsRem360_bounds (c / pc * 360)
          exact ⟨hb.1, hb.2.1⟩
      | nan =>
          rw [computeAngleDeg_nonfin _ pc (Or.inl rfl)]
          trivial
      | inf =>
          rw [computeAngleDeg_nonfin _ pc (Or.inr (Or.inl rfl))]
          trivial
      | negInf =>
          rw [computeAngleDeg_nonfin _ pc (Or.inr (Or.inr rfl))]
          trivial
    · show quotNonneg tok.cents pc → degIn0360 (computeAngleDeg tok.cents (.fin pc))
      intro hq
      cases hc : tok.cents with
      | fin c =>
          rw [hc] at hq
          rw [computeAngleDeg_fin c pc hpc]
          have hb := jsRem360_bounds (c / pc * 360)
          have h0 : (0:ℝ) ≤ c / pc * 360 := mul_nonneg hq (by norm_num)
          exact ⟨hb.2.2 h0, hb.2.1⟩
      | nan => rw [hc] at hq; exact hq.elim
      | inf => rw [hc] at hq; exact hq.elim
      | negInf => rw [hc] at hq; exact hq.elim

/-- Witness for C2 at period `"1200"`, empty interval text, centre (0,0),
radius 1: the (only) placed item is the period item, whose angle satisfies
the amended specification. -/
theorem C2_witness :
    (1200 : ℝ) ≠ 0 ∧
    ((⟨.fin 0, "1200", .period, .fin 0, .fin 0, .fin (0 - 1)⟩ : PlacedItem)
        ∈ buildItems "1200" "" 0 0 1 (.fin 1200)) ∧
    ((⟨.fin 0, "1200", .period, .fin 0, .fin 0, .fin (0 - 1)⟩ : PlacedItem).deg
        = computeAngleDeg
            (⟨.fin 0, "1200", .period, .fin 0, .fin 0, .fin (0 - 1)⟩ : PlacedItem).cents
            (.fin 1200) ∧
      degWithin (⟨.fin 0, "1200", .period, .fin 0, .fin 0, .fin (0 - 1)⟩ : PlacedItem).deg ∧
      (quotNonneg (⟨.fin 0, "1200", .period, .fin 0, .fin 0, .fin (0 - 1)⟩ : PlacedItem).cents 1200
        → degIn0360 (⟨.fin 0, "1200", .period, .fin 0, .fin 0, .fin (0 - 1)⟩ : PlacedItem).deg)) :=
  ⟨by norm_num, List.mem_cons_self _ _,
    C2_angle_spec "1200" "" 0 0 1 1200 (by norm_num) _ (List.mem_cons_self _ _)⟩

/-- Claim C2 counterexample: with period 1200 and the single interval line
`-100`, the placed item's `deg` is `-30`, which is not in `[0, 360)`:
the JS remainder keeps the dividend's sign. -/
theorem C2_counterexample :
    Option.map PlacedItem.deg ((buildItems "1200" "-100" 0 0 1 (.fin 1200))[1]?)
      = some (.fin (-30)) ∧ ¬ ((0:ℝ) ≤ -30) := by
  constructor
  · have hparse : parseCentsOrRatioToCents "-100"
        = some ⟨.fin ((-100 : ℚ) : ℝ), "-100", .cents⟩ := by
      rw [parse_cents_path "-100" (by decide)]
      rw [show jsNumber (stripUnits (stripWS (jsTrim "-100"))) = QNum.fin (-100) from by
        with_unfolding_all decide]
      rfl
    have hitems : buildItems "1200" "-100" 0 0 1 (.fin 1200)
        = [⟨.fin 0, normalizePeriodLabel "1200" (.fin 1200), .period, .fin 0,
             .fin 0, .fin (0 - 1)⟩,
           placeItem ⟨.fin ((-100 : ℚ) : ℝ), "-100", .cents⟩ 0 0 1 (.fin 1200)] := by
      unfold buildItems
      rw [show splitLines "-100" = ["-100"] from rfl]
      rw [List.filterMap_cons, hparse]
      rfl
    rw [hitems]
    show some (placeItem ⟨.fin ((-100 : ℚ) : ℝ), "-100", .cents⟩ 0 0 1 (.fin 1200)).deg
        = some (.fin (-30))
    have hdeg : (placeItem ⟨.fin ((-100 : ℚ) : ℝ), "-100", .cents⟩ 0 0 1
        (.fin 1200)).deg = computeAngleDeg (.fin ((-100 : ℚ) : ℝ)) (.fin 1200) := rfl
    rw [hdeg]
    have hc : ((-100 : ℚ) : ℝ) = -100 := by norm_num
    rw [hc, computeAngleDeg_fin _ _ (by norm_num)]
    have htr : truncR ((-100 : ℝ) / 1200 * 360 / 360) = 0 := by
      unfold truncR
      rw [if_neg (by norm_num)]
      rw [Int.ceil_eq_iff]
      constructor <;> norm_num
    rw [htr]
    norm_num
  · norm_num

/-- Claim C3 (amended): the angle computation is periodic modulo 360: for a
finite non-zero period, adding an integer multiple of the period to the cents
changes the JS angle by an integer multiple of 360, so cosine and sine (and
hence the placed position) are unchanged.  The raw `deg` values themselves
can differ by that multiple of 360 (see the counterexample), so the original
equality claim fails. -/
theorem C3_periodicity_mod360 (c p : ℝ) (k : ℤ) (hp : p ≠ 0) :
    ∃ x y : ℝ, ∃ m : ℤ,
      computeAngleDeg (.fin c) (.fin p) = .fin x ∧
      computeAngleDeg (.fin (c + k * p)) (.fin p) = .fin y ∧
      y - x = 360 * m ∧
      Real.cos ((y - 90) * (Real.pi / 180)) = Real.cos ((x - 90) * (Real.pi / 180)) ∧
      Real.sin ((y - 90) * (Real.pi / 180)) = Real.sin ((x - 90) * (Real.pi / 180)) := by
  have hq : (c + (k : ℝ) * p) / p * 360 = c / p * 360 + (k : ℝ) * 360 := by
    field_simp
    ring
  set x := c / p * 360 - 360 * (truncR (c / p * 360 / 360) : ℝ) with hxdef
  set y := (c / p * 360 + (k : ℝ) * 360)
      - 360 * (truncR ((c / p * 360 + (k : ℝ) * 360) / 360) : ℝ) with hydef
  set m : ℤ := k - truncR ((c / p * 360 + (k : ℝ) * 360) / 360)
      + truncR (c / p * 360 / 360) with hmdef
  have hyx : y - x = 360 * (m : ℝ) := by
    rw [hxdef, hydef, hmdef]
    push_cast
    ring
  refine ⟨x, y, m, computeAngleDeg_fin c p hp, ?_, hyx, ?_, ?_⟩
  · rw [computeAngleDeg_fin _ p hp, hq]
  · have harg : (y - 90) * (Real.pi / 180)
        = (x - 90) * (Real.pi / 180) + (m : ℝ) * (2 * Real.pi) := by
      have hy2 : y = x + 360 * (m : ℝ) := by linarith
      rw [hy2]
      ring
    rw [harg, Real.cos_add_int_mul_two_pi]
  · have harg : (y - 90) * (Real.pi / 180)
        = (x - 90) * (Real.pi / 180) + (m : ℝ) * (2 * Real.pi) := by
      have hy2 : y = x + 360 * (m : ℝ) := by linarith
      rw [hy2]
      ring
    rw [harg, Real.sin_add_int_mul_two_pi]

/-- Witness for C3 at cents `-100`, period `1200`, shift `k = 1`. -/
theorem C3_witness :
    (1200 : ℝ) ≠ 0 ∧
    (∃ x y : ℝ, ∃ m : ℤ,
      computeAngleDeg (.fin (-100)) (.fin 1200) = .fin x ∧
      computeAngleDeg (.fin (-100 + (1 : ℤ) * 1200)) (.fin 1200) = .fin y ∧
      y - x = 360 * m ∧
      Real.cos ((y - 90) * (Real.pi / 180)) = Real.cos ((x - 90) * (Real.pi / 180)) ∧
      Real.sin ((y - 90) * (Real.pi / 180)) = Real.sin ((x - 90) * (Real.pi / 180))) :=
  ⟨by norm_num, C3_periodicity_mod360 (-100) 1200 1 (by norm_num)⟩

/-- Claim C3 counterexample: the raw angles are not equal: with period 1200,
cents `-100` gives `deg = -30` while cents `-100 + 1*1200 = 1100` gives
`deg = 330`. -/
theorem C3_counterexample :
    computeAngleDeg (.fin (-100)) (.fin 1200) = .fin (-30) ∧
    computeAngleDeg (.fin (-100 + 1 * 1200)) (.fin 1200) = .fin 330 ∧
    computeAngleDeg (.fin (-100)) (.fin 1200)
      ≠ computeAngleDeg (.fin (-100 + 1 * 1200)) (.fin 1200) := by
  have h1 : computeAngleDeg (.fin (-100)) (.fin 1200) = .fin (-30) := by
    rw [computeAngleDeg_fin _ _ (by norm_num)]
    have htr : truncR ((-100 : ℝ) / 1200 * 360 / 360) = 0 := by
      unfold truncR
      rw [if_neg (by norm_num)]
      rw [Int.ceil_eq_iff]
      constructor <;> norm_num
    rw [htr]
    norm_num
  have h2 : computeAngleDeg (.fin (-100 + 1 * 1200)) (.fin 1200) = .fin 330 := by
    rw [computeAngleDeg_fin _ _ (by norm_num)]
    have htr : truncR ((-100 + 1 * 1200 : ℝ) / 1200 * 360 / 360) = 0 := by
      unfold truncR
      rw [if_pos (by norm_num)]
      rw [Int.floor_eq_iff]
      constructor <;> norm_num
    rw [htr]
    norm_num
  refine ⟨h1, h2, ?_⟩
  rw [h1, h2]
  intro hcontra
  rw [RNum.fin.injEq] at hcontra
  norm_num at hcontra

/-! ### Characters accepted by `numLit` (needed for the whitespace claims) -/

lemma expDigits_chars (cs : List Char) (e : ℤ) (h : expDigits cs = some e) :
    ∀ c ∈ cs, c.isDigit = true := by
  unfold expDigits at h
  split at h
  · rename_i hc
    rw [Bool.and_eq_true] at hc
    have h2 := hc.2
    rw [List.all_eq_true] at h2
    intro c hm
    simpa using h2 c hm
  · exact absurd h (by simp)

lemma expSigned_chars (cs : List Char) (e : ℤ) (h : expSigned cs = some e) :
    ∀ c ∈ cs, c.isDigit = true ∨ c = '+' ∨ c = '-' := by
  unfold expSigned at h
  split at h
  · rename_i hc
    intro c hm
    rw [eq_cons_of_head? hc] at hm
    rcases List.mem_cons.mp hm with rfl | hm2
    · exact Or.inr (Or.inl rfl)
    · exact Or.inl (expDigits_chars _ _ h c hm2)
  · split at h
    · rename_i hc
      rw [Option.map_eq_some'] at h
      obtain ⟨n, hn, -⟩ := h
      intro c hm
      rw [eq_cons_of_head? hc] at hm
      rcases List.mem_cons.mp hm with rfl | hm2
      · exact Or.inr (Or.inr rfl)
      · exact Or.inl (expDigits_chars _ _ hn c hm2)
    · intro c hm
      exact Or.inl (expDigits_chars _ _ h c hm)

lemma expVal_chars (cs : List Char) (e : ℤ) (h : expVal cs = some e) :
    ∀ c ∈ cs, c.isDigit = true ∨ c = '+' ∨ c = '-' ∨ c = 'e' ∨ c = 'E' := by
  unfold expVal at h
  split at h
  · rename_i hc
    rw [List.isEmpty_iff] at hc
    subst hc
    intro c hm
    simp at hm
  · split at h
    · rename_i hc
      intro c hm
      rcases hc with hh | hh
      · rw [eq_cons_of_head? hh] at hm
        rcases List.mem_cons.mp hm with rfl | hm2
        · exact Or.inr (Or.inr (Or.inr (Or.inl rfl)))
        · rcases expSigned_chars _ _ h c hm2 with h1 | h1 | h1
          · exact Or.inl h1
          · exact Or.inr (Or.inl h1)
          · exact Or.inr (Or.inr (Or.inl h1))
      · rw [eq_cons_of_head? hh] at hm
        rcases List.mem_cons.mp hm with rfl | hm2
        · exact Or.inr (Or.inr (Or.inr (Or.inr rfl)))
        · rcases expSigned_chars _ _ h c hm2 with h1 | h1 | h1
          · exact Or.inl h1
          · exact Or.inr (Or.inl h1)
          · exact Or.inr (Or.inr (Or.inl h1))
    · exact absurd h (by simp)

lemma numLit_chars (cs : List Char) (q : ℚ) (h : numLit cs = some q) :
    ∀ c ∈ cs, c.isDigit = true ∨ c = '.' ∨ c = '+' ∨ c = '-' ∨ c = 'e' ∨ c = 'E' := by
  simp only [numLit] at h
  intro c hc
  rw [← List.takeWhile_append_dropWhile Char.isDigit cs] at hc
  rcases List.mem_append.mp hc with h1 | h1
  · exact Or.inl (mem_takeWhile_pred h1)
  · split at h
    · rename_i hdot
      rw [eq_cons_of_head? hdot] at h1
      rcases List.mem_cons.mp h1 with rfl | h2
      · exact Or.inr (Or.inl rfl)
      · rw [← List.takeWhile_append_dropWhile Char.isDigit
          ((cs.dropWhile Char.isDigit).tail)] at h2
        rcases List.mem_append.mp h2 with h3 | h3
        · exact Or.inl (mem_takeWhile_pred h3)
        · split at h
          · exact absurd h (by simp)
          · rw [Option.map_eq_some'] at h
            obtain ⟨e, he, -⟩ := h
            rcases expVal_chars _ _ he c h3 with h4 | h4 | h4 | h4 | h4
            · exact Or.inl h4
            · exact Or.inr (Or.inr (Or.inl h4))
            · exact Or.inr (Or.inr (Or.inr (Or.inl h4)))
            · exact Or.inr (Or.inr (Or.inr (Or.inr (Or.inl h4))))
            · exact Or.inr (Or.inr (Or.inr (Or.inr (Or.inr h4))))
    · split at h
      · exact absurd h (by simp)
      · rw [Option.map_eq_some'] at h
        obtain ⟨e, he, -⟩ := h
        rcases expVal_chars _ _ he c h1 with h4 | h4 | h4 | h4 | h4
        · exact Or.inl h4
        · exact Or.inr (Or.inr (Or.inl h4))
        · exact Or.inr (Or.inr (Or.inr (Or.inl h4)))
        · exact Or.inr (Or.inr (Or.inr (Or.inr (Or.inl h4))))
        · exact Or.inr (Or.inr (Or.inr (Or.inr (Or.inr h4))))

lemma numLit_no_ws (cs : List Char) (q : ℚ) (h : numLit cs = some q) :
    ∀ c ∈ cs, c.isWhitespace = false := by
  intro c hm
  rcases numLit_chars cs q h c hm with h1 | h1 | h1 | h1 | h1 | h1
  · exact isDigit_not_ws h1
  · subst h1; decide
  · subst h1; decide
  · subst h1; decide
  · subst h1; decide
  · subst h1; decide

lemma jsNumberBody_nan_of_ws (l : List Char) (neg : Bool) (w : Char) (hwmem : w ∈ l)
    (hw : w.isWhitespace = true) : jsNumberBody l neg = .nan := by
  unfold jsNumberBody
  rw [if_neg (by
    intro heq
    rw [heq] at hwmem
    have hall : ∀ c ∈ "Infinity".data, c.isWhitespace = false := by decide
    rw [hall w hwmem] at hw
    exact Bool.false_ne_true hw)]
  cases hnum : numLit l with
  | none => rfl
  | some q =>
      rw [numLit_no_ws l q hnum w hwmem] at hw
      exact absurd hw (by simp)

lemma jsNumber_nan_of_inner_ws (t : String) (htr : trimChars t.data = t.data)
    (hws : ∃ c ∈ t.data, c.isWhitespace = true) : jsNumber t = .nan := by
  obtain ⟨w, hwmem, hw⟩ := hws
  unfold jsNumber
  rw [htr]
  rw [if_neg (by
    intro hx
    rw [List.isEmpty_iff] at hx
    rw [hx] at hwmem
    simp at hwmem)]
  by_cases hp : t.data.head? = some '+'
  · rw [if_pos hp]
    refine jsNumberBody_nan_of_ws _ _ w ?_ hw
    rw [eq_cons_of_head? hp] at hwmem
    rcases List.mem_cons.mp hwmem with rfl | h2
    · exact absurd hw (by decide)
    · exact h2
  · rw [if_neg hp]
    by_cases hm : t.data.head? = some '-'
    · rw [if_pos hm]
      refine jsNumberBody_nan_of_ws _ _ w ?_ hw
      rw [eq_cons_of_head? hm] at hwmem
      rcases List.mem_cons.mp hwmem with rfl | h2
      · exact absurd hw (by decide)
      · exact h2
    · rw [if_neg hm]
      exact jsNumberBody_nan_of_ws _ _ w hwmem hw

/-- Claim C5: every token whose trimmed text matches the
numeric-with-optional-cents-unit grammar (optionally negative, optionally
fractional, optional trailing `c`/`C`/`¢`) parses to a Cents token whose
cents value is the numeric value of the unit-stripped text and whose raw
label is the trimmed token. -/
theorem C5_cents_tokens (s : String) (h : centsRe (jsTrim s) = true) :
    parseCentsOrRatioToCents s
      = some ⟨(jsNumber (stripUnits (jsTrim s))).toR, jsTrim s, .cents⟩ := by
  have hnows : stripWS (jsTrim s) = jsTrim s := by
    have h2 : stripWSChars (jsTrim s).data = (jsTrim s).data := by
      unfold stripWSChars
      rw [List.filter_eq_self]
      intro a ha
      simp [centsReAux_no_ws _ h a ha]
    unfold stripWS
    rw [h2]
  rw [parse_cents_path s (by rw [hnows]; exact h)]
  rw [hnows]

/-- Witness for C5 at the token `" -700.5C "` (negative, fractional, with a
unit suffix and surrounding whitespace): cents `-700.5`. -/
theorem C5_witness :
    centsRe (jsTrim " -700.5C ") = true ∧
    parseCentsOrRatioToCents " -700.5C "
      = some ⟨(jsNumber (stripUnits (jsTrim " -700.5C "))).toR, jsTrim " -700.5C ", .cents⟩ ∧
    (jsNumber (stripUnits (jsTrim " -700.5C "))).toR = .fin (-700.5) ∧
    jsTrim " -700.5C " = "-700.5C" := by
  refine ⟨by decide, C5_cents_tokens _ (by decide), ?_, by decide⟩
  rw [show jsNumber (stripUnits (jsTrim " -700.5C ")) = QNum.fin (-1401/2) from by
    with_unfolding_all decide]
  show RNum.fin ((-1401/2 : ℚ) : ℝ) = .fin (-700.5)
  norm_num

/-- Claim C10: the interval parser removes all whitespace inside a token
before matching the cents grammar, while the period parser only trims; so
every token whose whitespace-stripped trimmed text matches the grammar but
whose trimmed text still contains whitespace yields a Cents token from
`parseCentsOrRatioToCents` and `NaN` from `parsePeriodToCents`. -/
theorem C10_whitespace_asymmetry (s : String)
    (hgram : centsRe (stripWS (jsTrim s)) = true)
    (hws : ∃ c ∈ (jsTrim s).data, c.isWhitespace = true) :
    parseCentsOrRatioToCents s
      = some ⟨(jsNumber (stripUnits (stripWS (jsTrim s)))).toR, jsTrim s, .cents⟩ ∧
    parsePeriodToCents s = .nan := by
  refine ⟨parse_cents_path s hgram, ?_⟩
  have hne : (jsTrim s).data ≠ [] := stripWS_ne_nil_of_grammar s hgram
  have hre : centsRe (jsTrim s) = false := by
    by_contra hcontr
    rw [Bool.not_eq_false] at hcontr
    obtain ⟨w, hwmem, hw⟩ := hws
    rw [centsReAux_no_ws _ hcontr w hwmem] at hw
    exact Bool.false_ne_true hw
  rw [parsePeriod_ratio_path s hne hre]
  have hnoslash : '/' ∉ (jsTrim s).data := by
    intro hsl
    have hmem2 : '/' ∈ (stripWS (jsTrim s)).data := by
      unfold stripWS stripWSChars
      simp only [List.mem_filter]
      exact ⟨hsl, by decide⟩
    exact centsReAux_no_slash _ hgram hmem2
  rw [parseRatio_nonslash (jsTrim s) (trimChars_idem s.data) hne hnoslash]
  rw [show jsNumber (String.mk (jsTrim s).data) = QNum.nan from
    jsNumber_nan_of_inner_ws (jsTrim s) (trimChars_idem s.data) hws]

/-- Witness for C10 at the token `"7 00c"`: the interval parser yields a
Cents token worth 700 cents, the period parser yields `NaN`. -/
theorem C10_witness :
    centsRe (stripWS (jsTrim "7 00c")) = true ∧
    (∃ c ∈ (jsTrim "7 00c").data, c.isWhitespace = true) ∧
    (parseCentsOrRatioToCents "7 00c"
        = some ⟨(jsNumber (stripUnits (stripWS (jsTrim "7 00c")))).toR,
            jsTrim "7 00c", .cents⟩ ∧
      parsePeriodToCents "7 00c" = .nan) ∧
    (jsNumber (stripUnits (stripWS (jsTrim "7 00c")))).toR = .fin ((700 : ℚ) : ℝ) := by
  refine ⟨by decide, by decide,
    C10_whitespace_asymmetry "7 00c" (by decide) (by decide), ?_⟩
  rw [show jsNumber (stripUnits (stripWS (jsTrim "7 00c"))) = QNum.fin 700 from by
    with_unfolding_all decide]
  rfl

/-- Claim C1 (amended): when `parseCentsOrRatioToCents` returns a token, the
token's cents value is finite except when the token was parsed as a ratio
whose value is not positive: such tokens store `NaN` (negative ratio) or
`-Infinity` (zero ratio) because `1200 * log2 r` is not finite there.
Failed parses return `none` (dropped silently), never a stored error. -/
theorem C1_cents_finite_or_degenerate_ratio (s : String) (t : IntervalToken)
    (h : parseCentsOrRatioToCents s = some t) :
    RNum.IsFinite t.cents ∨
      (t.type = .ratio ∧ (t.cents = .nan ∨ t.cents = .negInf)) := by
  by_cases hgram : centsRe (stripWS (jsTrim s)) = true
  · rw [parse_cents_path s hgram] at h
    obtain ⟨q, hq⟩ := jsNumber_strip_fin _ hgram
    rw [Option.some.injEq] at h
    subst h
    left
    rw [show jsNumber (stripUnits (stripWS (jsTrim s))) = QNum.fin q from hq]
    trivial
  · by_cases hne : (jsTrim s).data = []
    · exfalso
      simp only [parseCentsOrRatioToCents] at h
      rw [if_pos (by
        rw [Bool.or_eq_true]
        exact Or.inl (List.isEmpty_iff.mpr hne))] at h
      exact Option.noConfusion h
    · by_cases hhash : (jsTrim s).data.head? = some '#'
      · exfalso
        simp only [parseCentsOrRatioToCents] at h
        rw [if_pos (by
          rw [Bool.or_eq_true]
          exact Or.inr (by rw [decide_eq_true_eq]; exact hhash))] at h
        exact Option.noConfusion h
      · have hgram2 : centsRe (stripWS (jsTrim s)) = false :=
          Bool.eq_false_iff.mpr hgram
        rw [parse_ratio_path s hne hhash hgram2] at h
        cases hr : parseRatio (jsTrim s) with
        | none =>
            rw [hr] at h
            exact Option.noConfusion h
        | some r =>
            rw [hr] at h
            rw [Option.some.injEq] at h
            subst h
            show RNum.IsFinite (centsOfRatio r) ∨
              (TokType.ratio = .ratio ∧ (centsOfRatio r = .nan ∨ centsOfRatio r = .negInf))
            unfold centsOfRatio
            split_ifs with h1 h2
            · exact Or.inr ⟨rfl, Or.inl rfl⟩
            · exact Or.inr ⟨rfl, Or.inr rfl⟩
            · exact Or.inl trivial

/-- Claim C1 counterexample: the token `"0/1"` parses successfully to a ratio
token, yet its stored cents value is `-Infinity` (`1200 * log2 0`), which is
not finite. -/
theorem C1_counterexample :
    parseCentsOrRatioToCents "0/1" = some ⟨.negInf, "0/1", .ratio⟩ ∧
    ¬ RNum.IsFinite RNum.negInf := by
  constructor
  · rw [parse_ratio_path "0/1" (by decide) (by decide) (by decide)]
    rw [show parseRatio (jsTrim "0/1") = some 0 from by with_unfolding_all decide]
    show some (⟨centsOfRatio 0, jsTrim "0/1", .ratio⟩ : IntervalToken)
      = some ⟨.negInf, "0/1", .ratio⟩
    unfold centsOfRatio
    rw [if_neg (by norm_num), if_pos (rfl : (0:ℚ) = 0)]
    rfl
  · simp [RNum.IsFinite]

/-- Witness for C1 at the token `"3/2"`: it parses to a ratio token and
satisfies the amended finiteness disjunction. -/
theorem C1_witness :
    parseCentsOrRatioToCents "3/2"
      = some ⟨centsOfRatio (3/2), "3/2", .ratio⟩ ∧
    (RNum.IsFinite (centsOfRatio (3/2)) ∨
      (TokType.ratio = TokType.ratio ∧
        (centsOfRatio (3/2) = .nan ∨ centsOfRatio (3/2) = .negInf))) := by
  have hp : parseCentsOrRatioToCents "3/2"
      = some ⟨centsOfRatio (3/2), "3/2", .ratio⟩ := by
    rw [parse_ratio_path "3/2" (by decide) (by decide) (by decide)]
    rw [show parseRatio (jsTrim "3/2") = some (3/2) from by with_unfolding_all decide]
    rfl
  exact ⟨hp, C1_cents_finite_or_degenerate_ratio "3/2" _ hp⟩

/-- Claim C4: ratio tokens.  (a) A trimmed non-comment token containing `/`
whose first two `/`-fields evaluate under `Number()` to finite `a` and
`b ≠ 0` parses to a Ratio token whose cents is `1200 * log2 (a/b)` in
JavaScript semantics (`centsOfRatio (a/b)`), which equals the real number
`1200 * logb 2 (a/b)` whenever `a/b > 0`.  (b) A trimmed non-comment,
slash-free token failing the cents grammar whose `Number()` value is a
finite positive `n` parses to a Ratio token with cents `1200 * log2 n`. -/
theorem C4_ratio_tokens (s : String) :
    (('/' ∈ (jsTrim s).data ∧ (jsTrim s).data.head? ≠ some '#') →
      ∀ a b : ℚ,
        jsNumber (String.mk (((jsTrim s).data.splitOn '/').getD 0 [])) = .fin a →
        jsNumber (String.mk (((jsTrim s).data.splitOn '/').getD 1 [])) = .fin b →
        b ≠ 0 →
        parseCentsOrRatioToCents s
          = some ⟨centsOfRatio (a / b), jsTrim s, .ratio⟩ ∧
        (0 < a / b → centsOfRatio (a / b)
            = .fin (1200 * Real.logb 2 ((a : ℝ) / (b : ℝ))))) ∧
    (((jsTrim s).data ≠ [] ∧ (jsTrim s).data.head? ≠ some '#' ∧
        '/' ∉ (jsTrim s).data ∧ centsRe (stripWS (jsTrim s)) = false) →
      ∀ n : ℚ, jsNumber (jsTrim s) = .fin n → 0 < n →
        parseCentsOrRatioToCents s = some ⟨centsOfRatio n, jsTrim s, .ratio⟩ ∧
        centsOfRatio n = .fin (1200 * Real.logb 2 (n : ℝ))) := by
  constructor
  · rintro ⟨hslash, hhash⟩ a b ha hb hb0
    have hne : (jsTrim s).data ≠ [] := List.ne_nil_of_mem hslash
    have hgram : centsRe (stripWS (jsTrim s)) = false := by
      rw [Bool.eq_false_iff]
      intro hcontr
      have hmem2 : '/' ∈ (stripWS (jsTrim s)).data := by
        unfold stripWS stripWSChars
        simp only [List.mem_filter]
        exact ⟨hslash, by decide⟩
      exact centsReAux_no_slash _ hcontr hmem2
    have hratio : parseRatio (jsTrim s) = some (a / b) := by
      rw [parseRatio_slash (jsTrim s) (trimChars_idem s.data) hslash]
      rw [ha, hb]
      show (if b ≠ 0 then some (a / b) else none) = some (a / b)
      rw [if_pos hb0]
    constructor
    · rw [parse_ratio_path s hne hhash hgram, hratio]
    · intro hpos
      unfold centsOfRatio
      rw [if_neg (by push_neg; exact hpos.le), if_neg (by positivity)]
      rw [Rat.cast_div]
  · rintro ⟨hne, hhash, hslash, hgram⟩ n hn hn0
    have hratio : parseRatio (jsTrim s) = some n := by
      rw [parseRatio_nonslash (jsTrim s) (trimChars_idem s.data) hne hslash]
      rw [show jsNumber (String.mk (jsTrim s).data) = QNum.fin n from hn]
      show (if 0 < n then some n else none) = some n
      rw [if_pos hn0]
    constructor
    · rw [parse_ratio_path s hne hhash hgram, hratio]
    · unfold centsOfRatio
      rw [if_neg (by push_neg; exact hn0.le), if_neg (by positivity)]

/-- Witness for C4: part (a) at `"3/2"` (cents `1200 * logb 2 (3/2)`), part
(b) at `".5"` (a bare decimal failing the cents grammar, ratio `1/2`). -/
theorem C4_witness :
    ('/' ∈ (jsTrim "3/2").data ∧ (jsTrim "3/2").data.head? ≠ some '#') ∧
    jsNumber (String.mk (((jsTrim "3/2").data.splitOn '/').getD 0 [])) = .fin 3 ∧
    jsNumber (String.mk (((jsTrim "3/2").data.splitOn '/').getD 1 [])) = .fin 2 ∧
    (2 : ℚ) ≠ 0 ∧
    (parseCentsOrRatioToCents "3/2"
        = some ⟨centsOfRatio ((3 : ℚ) / 2), jsTrim "3/2", .ratio⟩ ∧
      (0 < (3 : ℚ) / 2 → centsOfRatio ((3 : ℚ) / 2)
          = .fin (1200 * Real.logb 2 (((3 : ℚ) : ℝ) / ((2 : ℚ) : ℝ))))) ∧
    ((jsTrim ".5").data ≠ [] ∧ (jsTrim ".5").data.head? ≠ some '#' ∧
      '/' ∉ (jsTrim ".5").data ∧ centsRe (stripWS (jsTrim ".5")) = false) ∧
    jsNumber (jsTrim ".5") = .fin (1/2) ∧ (0 : ℚ) < 1/2 ∧
    (parseCentsOrRatioToCents ".5"
        = some ⟨centsOfRatio ((1 : ℚ)/2), jsTrim ".5", .ratio⟩ ∧
      centsOfRatio ((1 : ℚ)/2) = .fin (1200 * Real.logb 2 (((1 : ℚ)/2 : ℚ) : ℝ))) :=
  ⟨⟨by decide, by decide⟩,
   by with_unfolding_all decide,
   by with_unfolding_all decide,
   by norm_num,
   (C4_ratio_tokens "3/2").1 ⟨by decide, by decide⟩ 3 2
     (by with_unfolding_all decide) (by with_unfolding_all decide) (by norm_num),
   ⟨by decide, by decide, by decide, by decide⟩,
   by with_unfolding_all decide,
   by norm_num,
   (C4_ratio_tokens ".5").2 ⟨by decide, by decide, by decide, by decide⟩ (1/2)
     (by with_unfolding_all decide) (by norm_num)⟩

/-! ### Degenerate-period rendering -/

lemma createExportSVG_degenerate (cfg : ExportConfig)
    (hguard : ¬ ((∃ x, parsePeriodToCents cfg.periodText = RNum.fin x) ∧
        parsePeriodToCents cfg.periodText ≠ RNum.fin 0)) :
    createExportSVG cfg
      = ⟨(calculateExportDimensions cfg.containerRect cfg.circleSizeValue
            cfg.showLabelsChecked cfg.labelDistanceValue).size,
         (calculateExportDimensions cfg.containerRect cfg.circleSizeValue
            cfg.showLabelsChecked cfg.labelDistanceValue).size,
         [SVGNode.rect (.fin 0) (.fin 0)
            (.fin (calculateExportDimensions cfg.containerRect cfg.circleSizeValue
              cfg.showLabelsChecked cfg.labelDistanceValue).size)
            (.fin (calculateExportDimensions cfg.containerRect cfg.circleSizeValue
              cfg.showLabelsChecked cfg.labelDistanceValue).size) "white"]⟩ := by
  simp only [createExportSVG]
  rw [if_pos hguard]

lemma drawScene_degenerate (cfg : LiveConfig)
    (hguard : ¬ ((∃ x, parsePeriodToCents cfg.periodText = RNum.fin x) ∧
        parsePeriodToCents cfg.periodText ≠ RNum.fin 0)) :
    ∃ W H : ℝ,
      drawScene cfg = [SVGNode.rect (.fin 0) (.fin 0) (.fin W) (.fin H) "white"] := by
  refine ⟨(calculateDimensions
      ⟨max DEFAULTS.MIN_DIMENSION
          ((⌊min cfg.panelRect.width
            (max 0 (cfg.panelRect.height - cfg.headerH - cfg.padTop -
              cfg.padBottom - 18))⌋ : ℤ) : ℝ),
        max DEFAULTS.MIN_DIMENSION
          ((⌊min cfg.panelRect.width
            (max 0 (cfg.panelRect.height - cfg.headerH - cfg.padTop -
              cfg.padBottom - 18))⌋ : ℤ) : ℝ)⟩
      cfg.circleSizeValue).W,
    (calculateDimensions
      ⟨max DEFAULTS.MIN_DIMENSION
          ((⌊min cfg.panelRect.width
            (max 0 (cfg.panelRect.height - cfg.headerH - cfg.padTop -
              cfg.padBottom - 18))⌋ : ℤ) : ℝ),
        max DEFAULTS.MIN_DIMENSION
          ((⌊min cfg.panelRect.width
            (max 0 (cfg.panelRect.height - cfg.headerH - cfg.padTop -
              cfg.padBottom - 18))⌋ : ℤ) : ℝ)⟩
      cfg.circleSizeValue).H, ?_⟩
  simp only [drawScene]
  rw [if_pos hguard]

/-- Claim C9: when the period text fails to parse (`NaN`) or parses to an
infinity or to zero, `createExportSVG` returns the SVG containing only the
opaque white background square, and the live `draw` emits only the white
background rectangle.  Both model functions are total, so no exception can
propagate to the caller in either mode. -/
theorem C9_degenerate_period (ecfg : ExportConfig) (lcfg : LiveConfig)
    (hE : parsePeriodToCents ecfg.periodText = .nan ∨
          parsePeriodToCents ecfg.periodText = .inf ∨
          parsePeriodToCents ecfg.periodText = .negInf ∨
          parsePeriodToCents ecfg.periodText = .fin 0)
    (hL : parsePeriodToCents lcfg.periodText = .nan ∨
          parsePeriodToCents lcfg.periodText = .inf ∨
          parsePeriodToCents lcfg.periodText = .negInf ∨
          parsePeriodToCents lcfg.periodText = .fin 0) :
    (∃ sz : ℝ, createExportSVG ecfg
        = ⟨sz, sz, [SVGNode.rect (.fin 0) (.fin 0) (.fin sz) (.fin sz) "white"]⟩) ∧
    (∃ W H : ℝ, drawScene lcfg
        = [SVGNode.rect (.fin 0) (.fin 0) (.fin W) (.fin H) "white"]) := by
  have mk : ∀ pt : String,
      (parsePeriodToCents pt = .nan ∨ parsePeriodToCents pt = .inf ∨
        parsePeriodToCents pt = .negInf ∨ parsePeriodToCents pt = .fin 0) →
      ¬ ((∃ x, parsePeriodToCents pt = RNum.fin x) ∧
          parsePeriodToCents pt ≠ RNum.fin 0) := by
    intro pt h
    rcases h with h1 | h1 | h1 | h1 <;> rw [h1]
    · rintro ⟨⟨x, hx⟩, -⟩
      exact RNum.noConfusion hx
    · rintro ⟨⟨x, hx⟩, -⟩
      exact RNum.noConfusion hx
    · rintro ⟨⟨x, hx⟩, -⟩
      exact RNum.noConfusion hx
    · rintro ⟨-, hne⟩
      exact hne rfl
  exact ⟨⟨_, createExportSVG_degenerate ecfg (mk _ hE)⟩,
    drawScene_degenerate lcfg (mk _ hL)⟩

/-- Witness for C9 at the empty period text (which parses to `NaN`), a
400×400 container, and a non-empty interval list. -/
theorem C9_witness :
    (parsePeriodToCents "" = RNum.nan ∨ parsePeriodToCents "" = .inf ∨
      parsePeriodToCents "" = .negInf ∨ parsePeriodToCents "" = .fin 0) ∧
    (∃ sz : ℝ, createExportSVG ⟨⟨400, 400⟩, 1, 35, 12, true, true, true, "", "700"⟩
        = ⟨sz, sz, [SVGNode.rect (.fin 0) (.fin 0) (.fin sz) (.fin sz) "white"]⟩) ∧
    (∃ W H : ℝ, drawScene ⟨⟨400, 400⟩, 40, 10, 10, 1, 35, 12, true, true, true, "", "700"⟩
        = [SVGNode.rect (.fin 0) (.fin 0) (.fin W) (.fin H) "white"]) := by
  have h0 : parsePeriodToCents "" = RNum.nan := rfl
  have happ := C9_degenerate_period
    ⟨⟨400, 400⟩, 1, 35, 12, true, true, true, "", "700"⟩
    ⟨⟨400, 400⟩, 40, 10, 10, 1, 35, 12, true, true, true, "", "700"⟩
    (Or.inl h0) (Or.inl h0)
  exact ⟨Or.inl h0, happ.1, happ.2⟩

/-! ### Period label idempotence (and its failure on the fallback branch) -/

lemma parsePeriodToCents_jsTrim (s : String) :
    parsePeriodToCents (jsTrim s) = parsePeriodToCents s := by
  simp only [parsePeriodToCents]
  rw [show jsTrim (jsTrim s) = jsTrim s from jsTrim_idem s]

/-- Claim C7 (amended): re-parsing the normalised period label reproduces the
period's cents value whenever the trimmed input matches the cents grammar or
contains a `/` (ratio form).  For bare-decimal fallback inputs the label
falls back to the rounded cents value, and re-parsing that can differ from
the original (see the counterexample). -/
theorem C7_period_label_idempotent (s : String) (x : ℝ)
    (hx : parsePeriodToCents s = .fin x)
    (hshape : centsRe (jsTrim s) = true ∨ '/' ∈ (jsTrim s).data) :
    parsePeriodToCents (normalizePeriodLabel s (.fin x)) = .fin x := by
  rcases hshape with hgram | hslash
  · -- cents-grammar path: the label is the unit-stripped trimmed input
    have hstrip := centsReAux_strip (jsTrim s).data hgram
    have hlabel : normalizePeriodLabel s (.fin x) = jsTrim (stripUnits (jsTrim s)) := by
      simp only [normalizePeriodLabel]
      rw [if_neg (by
        intro hc
        exact centsReAux_ne_nil _ hgram (List.isEmpty_iff.mp hc))]
      rw [if_neg (centsReAux_no_slash _ hgram)]
      rw [if_pos hgram]
    have hlabdata : (jsTrim (stripUnits (jsTrim s))).data
        = stripUnitChars (jsTrim s).data := by
      show trimChars (stripUnits (jsTrim s)).data = _
      exact trimChars_eq_self_of _ hstrip.2.2
    rw [hlabel]
    have hid : jsTrim (jsTrim (stripUnits (jsTrim s))) = jsTrim (stripUnits (jsTrim s)) :=
      jsTrim_idem _
    have hgram2 : centsRe (jsTrim (jsTrim (stripUnits (jsTrim s)))) = true := by
      rw [hid]
      show centsReAux (jsTrim (stripUnits (jsTrim s))).data = true
      rw [hlabdata]
      exact hstrip.1
    rw [parsePeriod_cents_path _ hgram2]
    rw [hid]
    have harg : stripUnitChars (jsTrim (stripUnits (jsTrim s))).data
        = stripUnitChars (jsTrim s).data := by
      rw [hlabdata]
      exact hstrip.2.1
    show (jsNumber (String.mk (stripUnitChars (jsTrim (stripUnits (jsTrim s))).data))).toR
        = .fin x
    rw [harg]
    rw [parsePeriod_cents_path s hgram] at hx
    exact hx
  · -- ratio form: the label is the trimmed input, kept verbatim
    have hlabel : normalizePeriodLabel s (.fin x) = jsTrim s := by
      simp only [normalizePeriodLabel]
      rw [if_neg (by
        intro hc
        rw [List.isEmpty_iff] at hc
        rw [hc] at hslash
        simp at hslash)]
      rw [if_pos hslash]
    rw [hlabel, parsePeriodToCents_jsTrim]
    exact hx

/-- Witness for C7 at the ratio-form period `"2/1"` (1200 cents). -/
theorem C7_witness :
    parsePeriodToCents "2/1" = .fin 1200 ∧
    (centsRe (jsTrim "2/1") = true ∨ '/' ∈ (jsTrim "2/1").data) ∧
    parsePeriodToCents (normalizePeriodLabel "2/1" (.fin 1200)) = .fin 1200 := by
  have hp : parsePeriodToCents "2/1" = .fin 1200 := by
    rw [parsePeriod_ratio_path "2/1" (by decide) (by decide)]
    rw [show parseRatio (jsTrim "2/1") = some 2 from by with_unfolding_all decide]
    show centsOfRatio 2 = .fin 1200
    unfold centsOfRatio
    rw [if_neg (by norm_num), if_neg (by norm_num)]
    rw [show ((2:ℚ):ℝ) = (2:ℝ) from by norm_num]
    rw [Real.logb_self_eq_one (by norm_num)]
    norm_num
  exact ⟨hp, Or.inr (by decide),
    C7_period_label_idempotent "2/1" 1200 hp (Or.inr (by decide))⟩

/-! ### Bounds on `logb 2 (3/2)` for the C7 counterexample -/

lemma logb32_gt : (1403:ℝ)/2400 < Real.logb 2 (3/2) := by
  rw [Real.lt_logb_iff_rpow_lt (by norm_num) (by norm_num)]
  have hq : ((2:ℝ) ^ ((1403:ℝ)/2400)) ^ (2400:ℕ) < ((3:ℝ)/2) ^ (2400:ℕ) := by
    rw [← Real.rpow_natCast ((2:ℝ) ^ ((1403:ℝ)/2400)) 2400, ← Real.rpow_mul (by norm_num)]
    rw [show (1403:ℝ)/2400 * ((2400:ℕ):ℝ) = ((1403:ℕ):ℝ) from by push_cast; norm_num,
      Real.rpow_natCast]
    rw [div_pow, lt_div_iff₀ (by positivity), ← pow_add]
    have hnat : (2:ℕ)^(1403+2400) < 3^2400 := by norm_num
    exact_mod_cast hnat
  exact lt_of_pow_lt_pow_left₀ 2400 (by positivity) hq

lemma logb32_lt : Real.logb 2 (3/2) < (281:ℝ)/480 := by
  rw [Real.logb_lt_iff_lt_rpow (by norm_num) (by norm_num)]
  have hq : ((3:ℝ)/2) ^ (480:ℕ) < ((2:ℝ) ^ ((281:ℝ)/480)) ^ (480:ℕ) := by
    rw [← Real.rpow_natCast ((2:ℝ) ^ ((281:ℝ)/480)) 480, ← Real.rpow_mul (by norm_num)]
    rw [show (281:ℝ)/480 * ((480:ℕ):ℝ) = ((281:ℕ):ℝ) from by push_cast; norm_num,
      Real.rpow_natCast]
    rw [div_pow, div_lt_iff₀ (by positivity), ← pow_add]
    have hnat : (3:ℕ)^480 < 2^(281+480) := by norm_num
    exact_mod_cast hnat
  exact lt_of_pow_lt_pow_left₀ 480 (by positivity) hq

lemma logb32_ne : Real.logb 2 (3/2) ≠ (117:ℝ)/200 := by
  intro heq
  have h2 : (2:ℝ) ^ ((117:ℝ)/200) = 3/2 := by
    rw [← heq]
    exact Real.rpow_logb (by norm_num) (by norm_num) (by norm_num)
  have h3 : (2:ℝ) ^ (117:ℕ) = ((3:ℝ)/2) ^ (200:ℕ) := by
    rw [← h2, ← Real.rpow_natCast ((2:ℝ) ^ ((117:ℝ)/200)) 200, ← Real.rpow_mul (by norm_num)]
    rw [show (117:ℝ)/200 * ((200:ℕ):ℝ) = ((117:ℕ):ℝ) from by push_cast; norm_num,
      Real.rpow_natCast]
  have h4 : (2:ℝ) ^ (117:ℕ) * 2 ^ (200:ℕ) = 3 ^ (200:ℕ) := by
    rw [h3, div_pow]
    field_simp
  have h5 : (2:ℝ) ^ (317:ℕ) = 3 ^ (200:ℕ) := by
    rw [← h4, ← pow_add]
  have h6 : (2:ℕ) ^ 317 = 3 ^ 200 := by exact_mod_cast h5
  have h7 : ¬ (2:ℕ) ^ 317 = 3 ^ 200 := by norm_num
  exact h7 h6

lemma round_150_eq : ⌊(1200 * Real.logb 2 (3/2) : ℝ) + 1/2⌋ = 702 := by
  have h1 := logb32_gt
  have h2 := logb32_lt
  rw [Int.floor_eq_iff]
  constructor
  · push_cast
    nlinarith
  · push_cast
    nlinarith

/-- Claim C7 counterexample: the period input `"+1.5"` fails the cents
grammar (leading `+`) and contains no `/`, so it parses through the
bare-decimal ratio fallback to `1200 * log2 1.5 ≈ 701.955` cents; the
normalised label falls back to the rounded `"702"`, which re-parses to
exactly 702 — a different cents value. -/
theorem C7_counterexample :
    parsePeriodToCents "+1.5" = .fin (1200 * Real.logb 2 (3/2)) ∧
    normalizePeriodLabel "+1.5" (.fin (1200 * Real.logb 2 (3/2))) = "702" ∧
    parsePeriodToCents "702" = .fin 702 ∧
    parsePeriodToCents (normalizePeriodLabel "+1.5"
        (.fin (1200 * Real.logb 2 (3/2))))
      ≠ parsePeriodToCents "+1.5" := by
  have hx : parsePeriodToCents "+1.5" = .fin (1200 * Real.logb 2 (3/2)) := by
    rw [parsePeriod_ratio_path "+1.5" (by decide) (by decide)]
    rw [show parseRatio (jsTrim "+1.5") = some (3/2) from by with_unfolding_all decide]
    show centsOfRatio (3/2) = .fin (1200 * Real.logb 2 (3/2))
    unfold centsOfRatio
    rw [if_neg (by norm_num), if_neg (by norm_num)]
    rw [RNum.fin.injEq]
    push_cast
    ring
  have hlabel : normalizePeriodLabel "+1.5" (.fin (1200 * Real.logb 2 (3/2)))
      = "702" := by
    simp only [normalizePeriodLabel]
    rw [if_neg (by decide), if_neg (by decide), if_neg (by decide)]
    simp only [toFixed0]
    rw [round_150_eq]
    rfl
  have h702 : parsePeriodToCents "702" = .fin 702 := by
    rw [parsePeriod_cents_path "702" (by decide)]
    rw [show jsNumber (stripUnits (jsTrim "702")) = QNum.fin 702 from by
      with_unfolding_all decide]
    show RNum.fin ((702:ℚ):ℝ) = .fin 702
    norm_num
  have hne : (1200 * Real.logb 2 (3/2) : ℝ) ≠ 702 := by
    intro hcontr
    apply logb32_ne
    linarith
  refine ⟨hx, hlabel, h702, ?_⟩
  rw [hlabel, h702, hx]
  intro hcontra
  rw [RNum.fin.injEq] at hcontra
  exact hne hcontra.symm
